import Mathlib

/-!
Leadership management and peer-set reconciliation (`nomad/leader.go`)

A shallow embedding of `monitorLeadership`, `leaderLoop`, `reconcile`,
`reconcileMember`, `addRaftPeer` and `removeRaftPeer`.

The two collaborators (the consensus engine `s.raft` and the gossip layer
`s.serf`) are external libraries.  They are embedded as interfaces over an
abstract state: every call takes the collaborator's state and returns the
observed outcome together with the next state, so an engine may answer any
call in any way.  Every function of the embedding returns, next to its Go
return value, the list of effects it performed, in program order.
-/

namespace Nomad

/-! ## Data model -/

/-- Go `error` values as far as the code distinguishes them: the two sentinel
values of the consensus library that the code compares against, and every
other error. -/
inductive Error where
  | ErrKnownPeer
  | ErrUnknownPeer
  | other (msg : String)
  deriving DecidableEq, Repr

/-- The gossip library's `serf.MemberStatus`, an integer type. -/
abbrev MemberStatus := Int

/-- Library constant `serf.StatusNone`. -/
def StatusNone : MemberStatus := 0
/-- Library constant `serf.StatusAlive`. -/
def StatusAlive : MemberStatus := 1
/-- Library constant `serf.StatusLeaving`. -/
def StatusLeaving : MemberStatus := 2
/-- Library constant `serf.StatusLeft`. -/
def StatusLeft : MemberStatus := 3
/-- Library constant `serf.StatusFailed`. -/
def StatusFailed : MemberStatus := 4

/-- The gossip library's `serf.Member`: the fields a snapshot entry carries. -/
structure Member where
  Name : String
  Addr : String
  Port : Nat
  Tags : List (String × String)
  Status : MemberStatus
  deriving DecidableEq, Repr

/-- Modelled from the spec: the type `serverParts` is declared outside the
files at hand.  It is the parsed view of a member's tags; the fields kept are
the ones `leader.go` reads: the region, the `bootstrap` flag, and `Addr`,
held here as the text `parts.Addr.String()` evaluates to. -/
structure serverParts where
  Region : String
  Bootstrap : Bool
  Addr : String
  deriving DecidableEq, Repr

/-- The log statements of `leader.go`, one constructor per `Printf` call site,
carrying the arguments that are formatted. -/
inductive LogLine where
  | leadershipAcquired
  | leadershipLost
  | errBarrier (err : Error)
  | errReconcile (err : Error)
  | errReconcileMember (member : Member) (err : Error)
  | errBothBootstrap (name other : String)
  | errAddPeer (err : Error)
  | infoAddedPeer (parts : serverParts)
  | errRemovePeer (parts : serverParts) (err : Error)
  | infoRemovedPeer (name : String)
  deriving DecidableEq, Repr

/-- Effects of the leadership code, recorded in program order. -/
inductive Event where
  /-- Assignment to the local `reconcileCh`: `false` is `nil`, `true` is
  `s.reconcileCh`. -/
  | setReconcileCh (enabled : Bool)
  /-- Arming of the timer, `time.After(s.config.ReconcileInterval)`. -/
  | timeAfter
  /-- The call `s.raft.Barrier(0)` with the outcome of `barrier.Error()`. -/
  | Barrier (err : Option Error)
  /-- Return of `s.reconcile()`. -/
  | reconcileReturned (err : Option Error)
  /-- Receipt `member := <-reconcileCh`. -/
  | recv (member : Member)
  /-- The call `s.serf.Members()`. -/
  | Members
  /-- Entry of `reconcileMember`. -/
  | reconcileMember (member : Member)
  /-- Entry of `addRaftPeer`. -/
  | addRaftPeer (m : Member) (parts : serverParts)
  /-- Entry of `removeRaftPeer`. -/
  | removeRaftPeer (m : Member) (parts : serverParts)
  /-- The call `s.raft.AddPeer(addr)`. -/
  | AddPeer (addr : String)
  /-- The call `s.raft.RemovePeer(addr)`. -/
  | RemovePeer (addr : String)
  /-- A line written through `s.logger.Printf`. -/
  | log (line : LogLine)
  /-- A timing measurement, `metrics.MeasureSince`, by the last key part. -/
  | metric (key : String)
  deriving DecidableEq, Repr

/-- The consensus engine as the code uses it.  Each operation stands for the
call followed by `.Error()` on the returned future. -/
structure Raft (R : Type) where
  AddPeer : String → R → Option Error × R
  RemovePeer : String → R → Option Error × R
  Barrier : R → Option Error × R

/-- The gossip layer as the code uses it: `Members()` returns the current
snapshot; two calls may return different snapshots. -/
structure Serf (S : Type) where
  Members : S → List Member × S

/-- The configuration fields read by `leader.go`. -/
structure Config where
  NodeName : String
  Region : String
  ReconcileInterval : Nat
  deriving DecidableEq, Repr

/-- The fields of `Server` read by `leader.go`. -/
structure Server (R S : Type) where
  config : Config
  raft : Raft R
  serf : Serf S

/-- Package-level declarations that `leader.go` uses and that are declared
outside the files at hand, taken as parameters: `isNomadServer` (its two
results `(valid, parts)` are given as an optional `serverParts`, `none`
standing for `valid = false`) and the constant `StatusReap`. -/
structure Pkg where
  isNomadServer : Member → Option serverParts
  StatusReap : MemberStatus

/-- The state of the two collaborators. -/
structure World (R S : Type) where
  raft : R
  serf : S

/-- Outcome of running a function: its return value, the collaborators' state
afterwards, and the effects performed. -/
structure Ret (R S : Type) (α : Type) where
  val : α
  world : World R S
  events : List Event

variable {R S : Type}

/-! ## `removeRaftPeer` and `addRaftPeer` -/

/-- Embedding of `removeRaftPeer`. -/
def removeRaftPeer (s : Server R S) (m : Member) (parts : serverParts)
    (w : World R S) : Ret R S (Option Error) :=
  let future := s.raft.RemovePeer parts.Addr w.raft
  let w1 : World R S := ⟨future.2, w.serf⟩
  let pre := [Event.removeRaftPeer m parts, Event.RemovePeer parts.Addr]
  match future.1 with
  | some err =>
    if err ≠ Error.ErrUnknownPeer then
      ⟨some err, w1, pre ++ [Event.log (LogLine.errRemovePeer parts err)]⟩
    else
      ⟨none, w1, pre⟩
  | none => ⟨none, w1, pre ++ [Event.log (LogLine.infoRemovedPeer m.Name)]⟩

/-- The scan of `addRaftPeer` over the snapshot: the first member that is a
valid server, has another name than the candidate, and is flagged bootstrap. -/
def bootstrapScan (P : Pkg) (m : Member) : List Member → Option Member
  | [] => none
  | member :: rest =>
    match P.isNomadServer member with
    | some p =>
      if member.Name ≠ m.Name ∧ p.Bootstrap = true then some member
      else bootstrapScan P m rest
    | none => bootstrapScan P m rest

/-- The part of `addRaftPeer` after the bootstrap check: "Attempt to add as a
peer". -/
def attemptAddPeer (s : Server R S) (parts : serverParts) (w : World R S) :
    Ret R S (Option Error) :=
  let future := s.raft.AddPeer parts.Addr w.raft
  let w1 : World R S := ⟨future.2, w.serf⟩
  match future.1 with
  | some err =>
    if err ≠ Error.ErrKnownPeer then
      ⟨some err, w1, [Event.AddPeer parts.Addr, Event.log (LogLine.errAddPeer err)]⟩
    else
      ⟨none, w1, [Event.AddPeer parts.Addr]⟩
  | none =>
    ⟨none, w1, [Event.AddPeer parts.Addr, Event.log (LogLine.infoAddedPeer parts)]⟩

/-- Embedding of `addRaftPeer`. -/
def addRaftPeer (P : Pkg) (s : Server R S) (m : Member) (parts : serverParts)
    (w : World R S) : Ret R S (Option Error) :=
  if parts.Bootstrap = true then
    let members := s.serf.Members w.serf
    let w1 : World R S := ⟨w.raft, members.2⟩
    match bootstrapScan P m members.1 with
    | some member =>
      ⟨none, w1, [Event.addRaftPeer m parts, Event.Members,
        Event.log (LogLine.errBothBootstrap m.Name member.Name)]⟩
    | none =>
      let r := attemptAddPeer s parts w1
      ⟨r.val, r.world, [Event.addRaftPeer m parts, Event.Members] ++ r.events⟩
  else
    let r := attemptAddPeer s parts w
    ⟨r.val, r.world, Event.addRaftPeer m parts :: r.events⟩

/-! ## `reconcileMember` and `reconcile` -/

/-- The `switch member.Status` of `reconcileMember` with the error handling
that follows it. -/
def dispatch (P : Pkg) (s : Server R S) (member : Member) (parts : serverParts)
    (w : World R S) : Ret R S (Option Error) :=
  let r : Ret R S (Option Error) :=
    if member.Status = StatusAlive then addRaftPeer P s member parts w
    else if member.Status = StatusLeft ∨ member.Status = P.StatusReap then
      removeRaftPeer s member parts w
    else ⟨none, w, []⟩
  match r.val with
  | some err =>
    ⟨some err, r.world, r.events ++ [Event.log (LogLine.errReconcileMember member err)]⟩
  | none => ⟨none, r.world, r.events⟩

/-- The name the local node has in the gossip layer,
`fmt.Sprintf("%s.%s", s.config.NodeName, s.config.Region)`. -/
def localName (c : Config) : String :=
  c.NodeName ++ "." ++ c.Region

/-- Embedding of `reconcileMember`. -/
def reconcileMember (P : Pkg) (s : Server R S) (member : Member)
    (w : World R S) : Ret R S (Option Error) :=
  match P.isNomadServer member with
  | none => ⟨none, w, [Event.reconcileMember member]⟩
  | some parts =>
    if parts.Region ≠ s.config.Region then
      ⟨none, w, [Event.reconcileMember member]⟩
    else if member.Name = localName s.config then
      ⟨none, w, [Event.reconcileMember member, Event.metric "reconcileMember"]⟩
    else
      let r := dispatch P s member parts w
      ⟨r.val, r.world,
        Event.reconcileMember member :: r.events ++ [Event.metric "reconcileMember"]⟩

/-- The `for _, member := range members` loop of `reconcile`. -/
def reconcileLoop (P : Pkg) (s : Server R S) :
    List Member → World R S → Ret R S (Option Error)
  | [], w => ⟨none, w, []⟩
  | member :: rest, w =>
    let r := reconcileMember P s member w
    match r.val with
    | some err => ⟨some err, r.world, r.events⟩
    | none =>
      let r2 := reconcileLoop P s rest r.world
      ⟨r2.val, r2.world, r.events ++ r2.events⟩

/-- Embedding of `reconcile`. -/
def reconcile (P : Pkg) (s : Server R S) (w : World R S) : Ret R S (Option Error) :=
  let members := s.serf.Members w.serf
  let r := reconcileLoop P s members.1 ⟨w.raft, members.2⟩
  ⟨r.val, r.world, Event.Members :: r.events ++ [Event.metric "reconcile"]⟩

/-! ## `leaderLoop` -/

/-- What one evaluation of the `select` in `leaderLoop` finds: which channels
can be received from (`stopCh` closed, `shutdownCh` closed, the timer of
`interval` fired, a member queued on `s.reconcileCh`), and the choice the Go
runtime makes among the cases that can proceed. -/
structure Ready where
  stopCh : Bool
  shutdownCh : Bool
  interval : Bool
  reconcileCh : Option Member
  pick : Nat
  deriving DecidableEq, Repr

/-- The four cases of the `select` in `leaderLoop`. -/
inductive Case where
  | stopCh
  | shutdownCh
  | interval
  | member (m : Member)
  deriving DecidableEq, Repr

/-- The cases of the `select` that can proceed, in source order.  The local
`reconcileCh` is `nil` when the flag is `false`, and a receive from a `nil`
channel never proceeds. -/
def readyCases (reconcileCh : Bool) (r : Ready) : List Case :=
  (if r.stopCh = true then [Case.stopCh] else []) ++
  (if r.shutdownCh = true then [Case.shutdownCh] else []) ++
  (if r.interval = true then [Case.interval] else []) ++
  (match r.reconcileCh with
   | some m => if reconcileCh = true then [Case.member m] else []
   | none => [])

/-- Go's `select`: when one or more cases can proceed, the runtime chooses a
single one of them; when none can, the statement blocks (`none`). -/
def selectCase (reconcileCh : Bool) (r : Ready) : Option Case :=
  (readyCases reconcileCh r)[r.pick % (readyCases reconcileCh r).length]?

/-- The code of `leaderLoop` from the label `RECONCILE` up to the label
`WAIT`.  The value returned is the local `reconcileCh` at `WAIT`: `true` for
`s.reconcileCh`, `false` for `nil`. -/
def sectionRECONCILE (P : Pkg) (s : Server R S) (w : World R S) : Ret R S Bool :=
  let barrier := s.raft.Barrier w.raft
  let w1 : World R S := ⟨barrier.2, w.serf⟩
  match barrier.1 with
  | some err =>
    ⟨false, w1, [Event.setReconcileCh false, Event.timeAfter, Event.Barrier (some err),
      Event.log (LogLine.errBarrier err)]⟩
  | none =>
    let r := reconcile P s w1
    match r.val with
    | some err =>
      ⟨false, r.world,
        [Event.setReconcileCh false, Event.timeAfter, Event.Barrier none,
          Event.metric "barrier"] ++ r.events ++
        [Event.reconcileReturned (some err), Event.log (LogLine.errReconcile err)]⟩
    | none =>
      ⟨true, r.world,
        [Event.setReconcileCh false, Event.timeAfter, Event.Barrier none,
          Event.metric "barrier"] ++ r.events ++
        [Event.reconcileReturned none, Event.setReconcileCh true]⟩

/-- The code of `leaderLoop` from the label `WAIT`: the `for { select }` loop,
run over the successive evaluations of the `select`.  The value returned
tells whether the function has returned (`true`) or is still blocked in the
`select` after the evaluations given (`false`). -/
def sectionWAIT (P : Pkg) (s : Server R S) :
    List Ready → Bool → World R S → Ret R S Bool
  | [], _, w => ⟨false, w, []⟩
  | r :: rs, reconcileCh, w =>
    match selectCase reconcileCh r with
    | none => sectionWAIT P s rs reconcileCh w
    | some Case.stopCh => ⟨true, w, []⟩
    | some Case.shutdownCh => ⟨true, w, []⟩
    | some Case.interval =>
      let c := sectionRECONCILE P s w
      let k := sectionWAIT P s rs c.val c.world
      ⟨k.val, k.world, c.events ++ k.events⟩
    | some (Case.member member) =>
      let c := reconcileMember P s member w
      let k := sectionWAIT P s rs reconcileCh c.world
      ⟨k.val, k.world, Event.recv member :: c.events ++ k.events⟩

/-- Embedding of `leaderLoop`. -/
def leaderLoop (P : Pkg) (s : Server R S) (rs : List Ready) (w : World R S) :
    Ret R S Bool :=
  let c := sectionRECONCILE P s w
  let k := sectionWAIT P s rs c.val c.world
  ⟨k.val, k.world, c.events ++ k.events⟩

/-! ## `monitorLeadership` -/

/-- What the `select` of `monitorLeadership` receives: a value from `leaderCh`
or the closing of `s.shutdownCh`. -/
inductive Notification where
  | leaderCh (isLeader : Bool)
  | shutdownCh
  deriving DecidableEq, Repr

/-- Effects of `monitorLeadership`.  Channels are named by the order in which
`make(chan struct{})` created them. -/
inductive MonitorEvent where
  /-- The statement `go s.leaderLoop(stopCh)`. -/
  | goLeaderLoop (stopCh : Nat)
  /-- The statement `close(stopCh)`. -/
  | close (stopCh : Nat)
  /-- A line written through `s.logger.Printf`. -/
  | log (line : LogLine)
  deriving DecidableEq, Repr

/-- The local state of `monitorLeadership`: the variable `stopCh` (`none` is
`nil`) and the number of channels made so far. -/
structure Monitor where
  stopCh : Option Nat
  made : Nat
  deriving DecidableEq, Repr

/-- The body of the `case isLeader := <-leaderCh` branch. -/
def onLeaderCh (isLeader : Bool) (mon : Monitor) : Monitor × List MonitorEvent :=
  if isLeader = true then
    (⟨some mon.made, mon.made + 1⟩,
      [MonitorEvent.goLeaderLoop mon.made, MonitorEvent.log LogLine.leadershipAcquired])
  else
    match mon.stopCh with
    | some ch => (⟨none, mon.made⟩, [MonitorEvent.close ch, MonitorEvent.log LogLine.leadershipLost])
    | none => (mon, [])

/-- The `for { select }` loop of `monitorLeadership`, run over the successive
receipts.  The Boolean tells whether the function has returned. -/
def monitorLoop : List Notification → Monitor → Monitor × List MonitorEvent × Bool
  | [], mon => (mon, [], false)
  | Notification.shutdownCh :: _, mon => (mon, [], true)
  | Notification.leaderCh isLeader :: ns, mon =>
    let r := onLeaderCh isLeader mon
    let k := monitorLoop ns r.1
    (k.1, r.2 ++ k.2.1, k.2.2)

/-- Embedding of `monitorLeadership`: `stopCh` starts as `nil`. -/
def monitorLeadership (ns : List Notification) : Monitor × List MonitorEvent × Bool :=
  monitorLoop ns ⟨none, 0⟩

/-- The stop channels of the `leaderLoop` instances that were started and
whose stop channel has not been closed. -/
def activeLoops (es : List MonitorEvent) : List Nat :=
  (es.filterMap fun e => match e with
    | MonitorEvent.goLeaderLoop ch => some ch
    | _ => none).filter fun ch => decide (MonitorEvent.close ch ∉ es)

/-! ## Observations on effect lists -/

/-- Calls on the consensus engine that change the peer set. -/
def Event.isPeerMutation : Event → Bool
  | Event.AddPeer _ => true
  | Event.RemovePeer _ => true
  | _ => false

/-- Calls on the consensus engine. -/
def Event.isEngineCall : Event → Bool
  | Event.AddPeer _ => true
  | Event.RemovePeer _ => true
  | Event.Barrier _ => true
  | _ => false

/-- Entries of `addRaftPeer`. -/
def Event.isAddRaftPeer : Event → Bool
  | Event.addRaftPeer _ _ => true
  | _ => false

/-- Entries of `removeRaftPeer`. -/
def Event.isRemoveRaftPeer : Event → Bool
  | Event.removeRaftPeer _ _ => true
  | _ => false

/-- Calls `s.raft.AddPeer`. -/
def Event.isAddPeer : Event → Bool
  | Event.AddPeer _ => true
  | _ => false

/-- Calls `s.raft.RemovePeer`. -/
def Event.isRemovePeer : Event → Bool
  | Event.RemovePeer _ => true
  | _ => false

/-- Effects that `addRaftPeer` and `removeRaftPeer` can perform, with the log
lines and measurements around them. -/
def Event.isPeerWork : Event → Bool
  | Event.addRaftPeer _ _ => true
  | Event.removeRaftPeer _ _ => true
  | Event.AddPeer _ => true
  | Event.RemovePeer _ => true
  | Event.Members => true
  | Event.log _ => true
  | Event.metric _ => true
  | _ => false

/-- Log lines. -/
def Event.isLog : Event → Bool
  | Event.log _ => true
  | _ => false

/-- The members `reconcileMember` was entered for, in order. -/
def reconcileMemberCalls (es : List Event) : List Member :=
  es.filterMap fun e => match e with
    | Event.reconcileMember m => some m
    | _ => none

/-! ## Sample collaborators, used at concrete inputs -/

/-- A consensus engine holding a peer set and a script of barrier outcomes:
`AddPeer` succeeds for an address absent from the set and reports
`ErrKnownPeer` for one present, `RemovePeer` succeeds for an address present
and reports `ErrUnknownPeer` for one absent, `Barrier` answers with the next
outcome of the script (success once the script is used up). -/
structure PeerSet where
  peers : List String
  barriers : List (Option Error)
  deriving DecidableEq, Repr

/-- The operations of the sample engine. -/
def peerSetRaft : Raft PeerSet where
  AddPeer := fun addr r =>
    if addr ∈ r.peers then (some Error.ErrKnownPeer, r)
    else (none, ⟨r.peers ++ [addr], r.barriers⟩)
  RemovePeer := fun addr r =>
    if addr ∈ r.peers then (none, ⟨r.peers.filter fun p => decide (p ≠ addr), r.barriers⟩)
    else (some Error.ErrUnknownPeer, r)
  Barrier := fun r =>
    match r.barriers with
    | [] => (none, r)
    | b :: bs => (b, ⟨r.peers, bs⟩)

/-- A consensus engine that refuses every change of the peer set with an error
of its own. -/
def rejectingRaft : Raft PeerSet where
  AddPeer := fun _ r => (some (Error.other "not leader"), r)
  RemovePeer := fun _ r => (some (Error.other "not leader"), r)
  Barrier := fun r => (none, r)

/-- A gossip layer whose snapshot does not change. -/
def fixedSerf : Serf (List Member) where
  Members := fun ms => (ms, ms)

/-- Sample package-level declarations: a member is a server when its `role`
tag is `nomad`; region and bootstrap flag are read from its tags, the address
is the member's address and its `port` tag; `StatusReap` is `-1`. -/
def samplePkg : Pkg where
  isNomadServer := fun m =>
    if m.Tags.lookup "role" = some "nomad" then
      some ⟨(m.Tags.lookup "region").getD "", decide (m.Tags.lookup "bootstrap" = some "1"),
        m.Addr ++ ":" ++ (m.Tags.lookup "port").getD ""⟩
    else none
  StatusReap := -1

/-- A server named `n0` in region `r1` over the sample collaborators. -/
def sampleServer : Server PeerSet (List Member) where
  config := ⟨"n0", "r1", 60⟩
  raft := peerSetRaft
  serf := fixedSerf

/-- The server `n0` of region `r1` over the engine that refuses every change. -/
def rejectingServer : Server PeerSet (List Member) where
  config := ⟨"n0", "r1", 60⟩
  raft := rejectingRaft
  serf := fixedSerf

/-- A server member of region `r1` with the given name, address, status and
bootstrap flag. -/
def sampleMember (name addr : String) (status : MemberStatus) (bootstrap : Bool) : Member :=
  ⟨name, addr, 4648,
    [("role", "nomad"), ("region", "r1"), ("port", "4647"),
      ("bootstrap", if bootstrap = true then "1" else "0")], status⟩

/-- The local node `n0.r1` itself, alive and flagged bootstrap. -/
def sampleSelf : Member := sampleMember "n0.r1" "10.0.0.9" StatusAlive true

/-- The server `n1.r1`, alive, not flagged bootstrap. -/
def sampleAlive : Member := sampleMember "n1.r1" "10.0.0.1" StatusAlive false

/-- The parsed view of `sampleAlive`. -/
def sampleParts : serverParts := ⟨"r1", false, "10.0.0.1:4647"⟩

/-- Two servers `b1.r1` and `b2.r1`, alive, both flagged bootstrap. -/
def sampleBoot1 : Member := sampleMember "b1.r1" "10.0.0.2" StatusAlive true

/-- The second bootstrap server. -/
def sampleBoot2 : Member := sampleMember "b2.r1" "10.0.0.3" StatusAlive true

/-- An empty peer set, barriers that succeed, and the snapshot
`[n0.r1, n1.r1]`. -/
def sampleWorld : World PeerSet (List Member) :=
  ⟨⟨[], []⟩, [sampleSelf, sampleAlive]⟩

/-- As `sampleWorld`, with a first barrier that fails. -/
def sampleWorldBarrierFails : World PeerSet (List Member) :=
  ⟨⟨[], [some (Error.other "leadership lost")]⟩, [sampleSelf, sampleAlive]⟩

/-- As `sampleWorld`, with the address of `n1.r1` already in the peer set. -/
def sampleWorldKnownPeer : World PeerSet (List Member) :=
  ⟨⟨["10.0.0.1:4647"], []⟩, [sampleSelf, sampleAlive]⟩

/-- An empty peer set and the snapshot `[b1.r1, b2.r1]`. -/
def sampleWorldTwoBootstrap : World PeerSet (List Member) :=
  ⟨⟨[], []⟩, [sampleBoot1, sampleBoot2]⟩

/-- An evaluation of the `select` with the stop channel closed and
`sampleAlive` queued on `s.reconcileCh`, in which the runtime chooses the
second of the cases that can proceed. -/
def stopAndMember : Ready := ⟨true, false, false, some sampleAlive, 1⟩

/-- An evaluation of the `select` with the stop channel closed and the timer
fired, in which the runtime chooses the second of the cases that can
proceed. -/
def stopAndTimer : Ready := ⟨true, false, true, none, 1⟩

/-- An evaluation of the `select` in which no case can proceed. -/
def nothingReady : Ready := ⟨false, false, false, none, 0⟩

/-- An evaluation of the `select` in which only the timer has fired. -/
def timerFired : Ready := ⟨false, false, true, none, 0⟩

/-! ## Specification-side definitions -/

/-- The bootstrap guard of `addRaftPeer` in the words of the specification:
the candidate is flagged bootstrap and the snapshot returned by
`s.serf.Members()` contains a valid server member with another name that is
flagged bootstrap too. -/
def bootstrapConflict (P : Pkg) (s : Server R S) (m : Member) (parts : serverParts)
    (w : World R S) : Prop :=
  parts.Bootstrap = true ∧
    ∃ member ∈ (s.serf.Members w.serf).1, ∃ p, P.isNomadServer member = some p ∧
      member.Name ≠ m.Name ∧ p.Bootstrap = true

/-- An engine seen through its peer set: `AddPeer` succeeds for an address
absent from the set, which is a peer afterwards, and reports "already a known
peer" for an address present, leaving the set as it is. -/
def AddsToPeerSet (raft : Raft R) (peers : R → List String) : Prop :=
  ∀ addr r,
    (addr ∉ peers r → (raft.AddPeer addr r).1 = none ∧ addr ∈ peers (raft.AddPeer addr r).2) ∧
    (addr ∈ peers r → (raft.AddPeer addr r).1 = some Error.ErrKnownPeer ∧
      peers (raft.AddPeer addr r).2 = peers r)

/-- A full pass in the words of the specification, without the early return:
`reconcileMember` run for every member of the snapshot in order, each run
starting from the state the previous one left.  The outcomes, in order. -/
def reconcileEach (P : Pkg) (s : Server R S) :
    List Member → World R S → List (Ret R S (Option Error))
  | [], _ => []
  | member :: rest, w =>
    reconcileMember P s member w ::
      reconcileEach P s rest (reconcileMember P s member w).world

/-- What an observer of the effects of `leaderLoop` knows at a point of the
run: the value last assigned to the local `reconcileCh`, whether the barrier
of the current cycle has passed, and whether the full pass of the current
cycle has returned without error.  A cycle begins with `reconcileCh = nil`. -/
structure Gate where
  enabled : Bool
  barrierPassed : Bool
  passSucceeded : Bool
  deriving DecidableEq, Repr

/-- The observer's knowledge after one more effect. -/
def Gate.observe (g : Gate) : Event → Gate
  | Event.setReconcileCh false => ⟨false, false, false⟩
  | Event.setReconcileCh true => ⟨true, g.barrierPassed, g.passSucceeded⟩
  | Event.Barrier none => ⟨g.enabled, true, g.passSucceeded⟩
  | Event.reconcileReturned none => ⟨g.enabled, g.barrierPassed, true⟩
  | _ => g

/-- What the gating of incremental processing demands of one effect: a member
is received only while `reconcileCh` is enabled and the current cycle has
passed its barrier and its full pass; `reconcileCh` is enabled only after
both; a barrier is issued only while `reconcileCh` is disabled. -/
def Gate.allows (g : Gate) : Event → Bool
  | Event.recv _ => g.enabled && g.barrierPassed && g.passSucceeded
  | Event.setReconcileCh true => g.barrierPassed && g.passSucceeded
  | Event.Barrier _ => !g.enabled
  | _ => true

/-- The observer's knowledge after a list of effects. -/
def Gate.after (g : Gate) (es : List Event) : Gate :=
  es.foldl Gate.observe g

/-- Every effect of the list is allowed at the point where it happens. -/
def gated : Gate → List Event → Bool
  | _, [] => true
  | g, e :: es => g.allows e && gated (g.observe e) es

/-- Effects of a reconciliation pass: entries of `reconcileMember` and peer
work. -/
def Event.isReconcileWork : Event → Bool
  | Event.reconcileMember _ => true
  | e => e.isPeerWork

/-! ## Lemmas -/

theorem bootstrapScan_isSome_iff (P : Pkg) (m : Member) (ms : List Member) :
    (bootstrapScan P m ms).isSome = true ↔
      ∃ member ∈ ms, ∃ p, P.isNomadServer member = some p ∧
        member.Name ≠ m.Name ∧ p.Bootstrap = true := by
  induction ms with
  | nil => simp [bootstrapScan]
  | cons a rest ih =>
    unfold bootstrapScan
    cases ha : P.isNomadServer a with
    | none => simp [ih, ha]
    | some p =>
      by_cases hc : a.Name ≠ m.Name ∧ p.Bootstrap = true
      · dsimp only
        rw [if_pos hc]
        simp only [Option.isSome_some, true_iff]
        exact ⟨a, List.mem_cons_self _ _, p, ha, hc.1, hc.2⟩
      · dsimp only
        rw [if_neg hc, ih]
        constructor
        · rintro ⟨x, hx, q, hq, h1, h2⟩
          exact ⟨x, List.mem_cons_of_mem _ hx, q, hq, h1, h2⟩
        · rintro ⟨x, hx, q, hq, h1, h2⟩
          rcases List.mem_cons.mp hx with rfl | hx
          · rw [ha] at hq
            cases hq
            exact absurd ⟨h1, h2⟩ hc
          · exact ⟨x, hx, q, hq, h1, h2⟩

theorem bootstrapScan_none_iff (P : Pkg) (s : Server R S) (m : Member) (parts : serverParts)
    (w : World R S) (hb : parts.Bootstrap = true) :
    bootstrapScan P m (s.serf.Members w.serf).1 = none ↔ ¬ bootstrapConflict P s m parts w := by
  rw [← Option.not_isSome_iff_eq_none, bootstrapScan_isSome_iff]
  simp [bootstrapConflict, hb]

theorem attemptAddPeer_world (s : Server R S) (parts : serverParts) (w : World R S) :
    (attemptAddPeer s parts w).world = ⟨(s.raft.AddPeer parts.Addr w.raft).2, w.serf⟩ := by
  unfold attemptAddPeer
  cases h : (s.raft.AddPeer parts.Addr w.raft).1 with
  | none => simp [h]
  | some err => by_cases he : err = Error.ErrKnownPeer <;> simp [h, he]

theorem attemptAddPeer_mutations (s : Server R S) (parts : serverParts) (w : World R S) :
    (attemptAddPeer s parts w).events.filter Event.isPeerMutation =
      [Event.AddPeer parts.Addr] := by
  unfold attemptAddPeer
  cases h : (s.raft.AddPeer parts.Addr w.raft).1 with
  | none => simp [h, List.filter, Event.isPeerMutation]
  | some err =>
    by_cases he : err = Error.ErrKnownPeer <;> simp [h, he, List.filter, Event.isPeerMutation]

theorem attemptAddPeer_ok (s : Server R S) (parts : serverParts) (w : World R S)
    (h : (s.raft.AddPeer parts.Addr w.raft).1 = none) :
    (attemptAddPeer s parts w).val = none ∧
      (attemptAddPeer s parts w).events.filter Event.isLog =
        [Event.log (LogLine.infoAddedPeer parts)] := by
  unfold attemptAddPeer
  simp [h, List.filter, Event.isLog]

theorem attemptAddPeer_known (s : Server R S) (parts : serverParts) (w : World R S)
    (h : (s.raft.AddPeer parts.Addr w.raft).1 = some Error.ErrKnownPeer) :
    (attemptAddPeer s parts w).val = none ∧
      (attemptAddPeer s parts w).events.filter Event.isLog = [] := by
  unfold attemptAddPeer
  simp [h, List.filter, Event.isLog]

theorem attemptAddPeer_failed (s : Server R S) (parts : serverParts) (w : World R S)
    (err : Error) (h : (s.raft.AddPeer parts.Addr w.raft).1 = some err)
    (he : err ≠ Error.ErrKnownPeer) :
    (attemptAddPeer s parts w).val = some err ∧
      (attemptAddPeer s parts w).events.filter Event.isLog =
        [Event.log (LogLine.errAddPeer err)] := by
  unfold attemptAddPeer
  simp [h, he, List.filter, Event.isLog]

/-- When the guard does not refuse, `addRaftPeer` is its entry, the snapshot
read when the candidate is flagged bootstrap, and the attempt to add. -/
theorem addRaftPeer_of_not_conflict (P : Pkg) (s : Server R S) (m : Member)
    (parts : serverParts) (w : World R S) (h : ¬ bootstrapConflict P s m parts w) :
    ∃ w1 : World R S, ∃ pre : List Event, w1.raft = w.raft ∧
      (∀ e ∈ pre, e = Event.addRaftPeer m parts ∨ e = Event.Members) ∧
      (addRaftPeer P s m parts w).val = (attemptAddPeer s parts w1).val ∧
      (addRaftPeer P s m parts w).world = (attemptAddPeer s parts w1).world ∧
      (addRaftPeer P s m parts w).events = pre ++ (attemptAddPeer s parts w1).events := by
  unfold addRaftPeer
  by_cases hb : parts.Bootstrap = true
  · have hn := (bootstrapScan_none_iff P s m parts w hb).mpr h
    refine ⟨⟨w.raft, (s.serf.Members w.serf).2⟩, [Event.addRaftPeer m parts, Event.Members],
      rfl, ?_, ?_, ?_, ?_⟩
    · intro e he
      simpa using he
    all_goals simp [hb, hn]
  · refine ⟨w, [Event.addRaftPeer m parts], rfl, ?_, ?_, ?_, ?_⟩
    · intro e he
      exact Or.inl (by simpa using he)
    all_goals simp [hb]

theorem addRaftPeer_of_conflict (P : Pkg) (s : Server R S) (m : Member)
    (parts : serverParts) (w : World R S) (h : bootstrapConflict P s m parts w) :
    ∃ other : Member, addRaftPeer P s m parts w =
      ⟨none, ⟨w.raft, (s.serf.Members w.serf).2⟩,
        [Event.addRaftPeer m parts, Event.Members,
          Event.log (LogLine.errBothBootstrap m.Name other.Name)]⟩ := by
  have hb : parts.Bootstrap = true := h.1
  have hs : bootstrapScan P m (s.serf.Members w.serf).1 ≠ none := by
    intro hn
    exact (bootstrapScan_none_iff P s m parts w hb).mp hn h
  obtain ⟨other, ho⟩ := Option.ne_none_iff_exists'.mp hs
  exact ⟨other, by unfold addRaftPeer; simp [hb, ho]⟩

theorem attemptAddPeer_engineCalls (s : Server R S) (parts : serverParts) (w : World R S) :
    (attemptAddPeer s parts w).events.filter Event.isEngineCall =
      [Event.AddPeer parts.Addr] := by
  unfold attemptAddPeer
  cases h : (s.raft.AddPeer parts.Addr w.raft).1 with
  | none => simp [h, List.filter, Event.isEngineCall]
  | some err =>
    by_cases he : err = Error.ErrKnownPeer <;> simp [h, he, List.filter, Event.isEngineCall]

theorem filter_entry_events (f : Event → Bool) (m : Member) (parts : serverParts)
    (pre : List Event) (hpre : ∀ e ∈ pre, e = Event.addRaftPeer m parts ∨ e = Event.Members)
    (hf1 : f (Event.addRaftPeer m parts) = false) (hf2 : f Event.Members = false) :
    pre.filter f = [] := by
  rw [List.filter_eq_nil_iff]
  intro e he
  rcases hpre e he with rfl | rfl <;> simp [hf1, hf2]

/-! ## The peer-set manager: `addRaftPeer`, `removeRaftPeer` -/

/-- When the guard does not refuse, the outcome of `addRaftPeer` is decided by
the engine's answer to `AddPeer` for the candidate's address, and the engine
is left in the state that call produced. -/
theorem addRaftPeer_accepted (P : Pkg) (s : Server R S) (m : Member)
    (parts : serverParts) (w : World R S) (h : ¬ bootstrapConflict P s m parts w) :
    ((addRaftPeer P s m parts w).world.raft = (s.raft.AddPeer parts.Addr w.raft).2) ∧
    ((s.raft.AddPeer parts.Addr w.raft).1 = none →
      (addRaftPeer P s m parts w).val = none ∧
      (addRaftPeer P s m parts w).events.filter Event.isLog =
        [Event.log (LogLine.infoAddedPeer parts)]) ∧
    ((s.raft.AddPeer parts.Addr w.raft).1 = some Error.ErrKnownPeer →
      (addRaftPeer P s m parts w).val = none ∧
      (addRaftPeer P s m parts w).events.filter Event.isLog = []) ∧
    (∀ err, (s.raft.AddPeer parts.Addr w.raft).1 = some err → err ≠ Error.ErrKnownPeer →
      (addRaftPeer P s m parts w).val = some err ∧
      (addRaftPeer P s m parts w).events.filter Event.isLog =
        [Event.log (LogLine.errAddPeer err)]) := by
  obtain ⟨w1, pre, hw1, hpre, hval, hworld, hev⟩ := addRaftPeer_of_not_conflict P s m parts w h
  have hlog : pre.filter Event.isLog = [] :=
    filter_entry_events Event.isLog m parts pre hpre rfl rfl
  rw [hval, hworld, hev, List.filter_append, hlog, List.nil_append, attemptAddPeer_world,
    ← hw1]
  exact ⟨rfl, attemptAddPeer_ok s parts w1, attemptAddPeer_known s parts w1,
    fun err => attemptAddPeer_failed s parts w1 err⟩

/-- C2: `addRaftPeer` calls `AddPeer` on the engine, exactly once and with the
candidate's address, if and only if the bootstrap guard does not hold (the
candidate is flagged bootstrap and the snapshot holds another valid server
member, of a different name, flagged bootstrap).  When the guard does not
hold, the engine is left in the state its `AddPeer` for the candidate's
address produced, and the value returned is decided by the engine's answer
(no error on success and on "already a known peer", the engine's own error
otherwise).  When the guard holds it returns no error, calls the engine not
at all and leaves the engine's state as it was; so with two valid bootstrap
members of different names in the snapshot, adding either one leaves the
engine (and its peer set) unchanged. -/
theorem addRaftPeer_bootstrap_guard (P : Pkg) (s : Server R S) (m : Member)
    (parts : serverParts) (w : World R S) :
    ((addRaftPeer P s m parts w).events.filter Event.isEngineCall =
        [Event.AddPeer parts.Addr] ↔ ¬ bootstrapConflict P s m parts w) ∧
    (¬ bootstrapConflict P s m parts w →
      (addRaftPeer P s m parts w).world.raft = (s.raft.AddPeer parts.Addr w.raft).2 ∧
      ((s.raft.AddPeer parts.Addr w.raft).1 = none →
        (addRaftPeer P s m parts w).val = none) ∧
      ((s.raft.AddPeer parts.Addr w.raft).1 = some Error.ErrKnownPeer →
        (addRaftPeer P s m parts w).val = none) ∧
      (∀ err, (s.raft.AddPeer parts.Addr w.raft).1 = some err →
        err ≠ Error.ErrKnownPeer → (addRaftPeer P s m parts w).val = some err)) ∧
    (bootstrapConflict P s m parts w →
      (addRaftPeer P s m parts w).val = none ∧
      (addRaftPeer P s m parts w).events.filter Event.isEngineCall = [] ∧
      (addRaftPeer P s m parts w).world.raft = w.raft) ∧
    (∀ a b pa pb, a ∈ (s.serf.Members w.serf).1 → b ∈ (s.serf.Members w.serf).1 →
      a.Name ≠ b.Name → P.isNomadServer a = some pa → P.isNomadServer b = some pb →
      pa.Bootstrap = true → pb.Bootstrap = true →
      ((addRaftPeer P s a pa w).val = none ∧
        (addRaftPeer P s a pa w).events.filter Event.isEngineCall = [] ∧
        (addRaftPeer P s a pa w).world.raft = w.raft) ∧
      ((addRaftPeer P s b pb w).val = none ∧
        (addRaftPeer P s b pb w).events.filter Event.isEngineCall = [] ∧
        (addRaftPeer P s b pb w).world.raft = w.raft)) := by
  have refused : ∀ (c : Member) (pc : serverParts), bootstrapConflict P s c pc w →
      (addRaftPeer P s c pc w).val = none ∧
      (addRaftPeer P s c pc w).events.filter Event.isEngineCall = [] ∧
      (addRaftPeer P s c pc w).world.raft = w.raft := by
    intro c pc hc
    obtain ⟨other, ho⟩ := addRaftPeer_of_conflict P s c pc w hc
    rw [ho]
    simp [List.filter, Event.isEngineCall]
  refine ⟨⟨?_, ?_⟩, ?_, refused m parts, ?_⟩
  · intro hcall hc
    rw [(refused m parts hc).2.1] at hcall
    cases hcall
  · intro hn
    obtain ⟨w1, pre, _, hpre, _, _, hev⟩ := addRaftPeer_of_not_conflict P s m parts w hn
    rw [hev, List.filter_append, attemptAddPeer_engineCalls,
      filter_entry_events Event.isEngineCall m parts pre hpre rfl rfl]
    rfl
  · intro hn
    obtain ⟨hworld, hok, hknown, hfail⟩ := addRaftPeer_accepted P s m parts w hn
    exact ⟨hworld, fun h => (hok h).1, fun h => (hknown h).1,
      fun err h he => (hfail err h he).1⟩
  · intro a b pa pb ha hb hne hva hvb hba hbb
    exact ⟨refused a pa ⟨hba, b, hb, pb, hvb, hne.symm, hbb⟩,
      refused b pb ⟨hbb, a, ha, pa, hva, hne, hba⟩⟩

/-- C6, as the code has it: for a candidate the bootstrap guard does not
refuse, `addRaftPeer` leaves the engine in the state its `AddPeer` produced,
returns no error and logs the addition when `AddPeer` succeeds, returns no
error and logs nothing when the engine reports "already a known peer", and
logs and returns the engine's own error for every other error.  Against an
engine that adds an absent address and reports "already a known peer" for a
present one, neither of two calls for the same address returns an error, the
second call is a silent no-op, and the peer set after it is the peer set
after the first; the first call logs the addition, so that the two calls log
exactly one addition, when the address was absent from the peer set before
it, and is a silent no-op too when the address was already a peer. -/
theorem addRaftPeer_idempotent (P : Pkg) (s : Server R S) (m : Member)
    (parts : serverParts) (w : World R S) (h : ¬ bootstrapConflict P s m parts w) :
    ((addRaftPeer P s m parts w).world.raft = (s.raft.AddPeer parts.Addr w.raft).2) ∧
    ((s.raft.AddPeer parts.Addr w.raft).1 = none →
      (addRaftPeer P s m parts w).val = none ∧
      (addRaftPeer P s m parts w).events.filter Event.isLog =
        [Event.log (LogLine.infoAddedPeer parts)]) ∧
    ((s.raft.AddPeer parts.Addr w.raft).1 = some Error.ErrKnownPeer →
      (addRaftPeer P s m parts w).val = none ∧
      (addRaftPeer P s m parts w).events.filter Event.isLog = []) ∧
    (∀ err, (s.raft.AddPeer parts.Addr w.raft).1 = some err → err ≠ Error.ErrKnownPeer →
      (addRaftPeer P s m parts w).val = some err ∧
      (addRaftPeer P s m parts w).events.filter Event.isLog =
        [Event.log (LogLine.errAddPeer err)]) ∧
    (∀ peers : R → List String, AddsToPeerSet s.raft peers →
      ¬ bootstrapConflict P s m parts (addRaftPeer P s m parts w).world →
      (addRaftPeer P s m parts w).val = none ∧
      (addRaftPeer P s m parts (addRaftPeer P s m parts w).world).val = none ∧
      (addRaftPeer P s m parts (addRaftPeer P s m parts w).world).events.filter Event.isLog
        = [] ∧
      peers (addRaftPeer P s m parts (addRaftPeer P s m parts w).world).world.raft =
        peers (addRaftPeer P s m parts w).world.raft ∧
      (parts.Addr ∉ peers w.raft →
        ((addRaftPeer P s m parts w).events ++
          (addRaftPeer P s m parts (addRaftPeer P s m parts w).world).events).filter
            Event.isLog = [Event.log (LogLine.infoAddedPeer parts)] ∧
        parts.Addr ∈ peers (addRaftPeer P s m parts w).world.raft) ∧
      (parts.Addr ∈ peers w.raft →
        ((addRaftPeer P s m parts w).events ++
          (addRaftPeer P s m parts (addRaftPeer P s m parts w).world).events).filter
            Event.isLog = [] ∧
        peers (addRaftPeer P s m parts w).world.raft = peers w.raft)) := by
  obtain ⟨hworld, hok, hknown, hfail⟩ := addRaftPeer_accepted P s m parts w h
  refine ⟨hworld, hok, hknown, hfail, ?_⟩
  intro peers hspec h2
  obtain ⟨hworld2, _, hknown2, _⟩ := addRaftPeer_accepted P s m parts _ h2
  have hin : parts.Addr ∈ peers (addRaftPeer P s m parts w).world.raft := by
    rw [hworld]
    by_cases hmem : parts.Addr ∈ peers w.raft
    · rw [((hspec parts.Addr w.raft).2 hmem).2]
      exact hmem
    · exact ((hspec parts.Addr w.raft).1 hmem).2
  have hsecond := (hspec parts.Addr (addRaftPeer P s m parts w).world.raft).2 hin
  have hfirst : (addRaftPeer P s m parts w).val = none := by
    by_cases hmem : parts.Addr ∈ peers w.raft
    · exact (hknown ((hspec parts.Addr w.raft).2 hmem).1).1
    · exact (hok ((hspec parts.Addr w.raft).1 hmem).1).1
  refine ⟨hfirst, (hknown2 hsecond.1).1, (hknown2 hsecond.1).2, ?_, ?_, ?_⟩
  · rw [hworld2]
    exact hsecond.2
  · intro hmem
    refine ⟨?_, hin⟩
    rw [List.filter_append, (hknown2 hsecond.1).2,
      (hok ((hspec parts.Addr w.raft).1 hmem).1).2]
    rfl
  · intro hmem
    refine ⟨?_, ?_⟩
    · rw [List.filter_append, (hknown2 hsecond.1).2,
        (hknown ((hspec parts.Addr w.raft).2 hmem).1).2]
      rfl
    · rw [hworld]
      exact ((hspec parts.Addr w.raft).2 hmem).2

/-- C7: `removeRaftPeer` calls `RemovePeer` once with the member's address;
it returns no error and logs the removal when the engine succeeds, returns no
error and logs nothing when the engine reports "not a known peer", and logs
and returns the engine's own error for every other error.  So when the engine
answers "not a known peer" and keeps its state, as for an address that is not
in the peer set, the call is a silent no-op: no error, no log line, and the
collaborators' state unchanged. -/
theorem removeRaftPeer_contract (s : Server R S) (m : Member) (parts : serverParts)
    (w : World R S) :
    (removeRaftPeer s m parts w).events.filter Event.isEngineCall =
      [Event.RemovePeer parts.Addr] ∧
    (removeRaftPeer s m parts w).world = ⟨(s.raft.RemovePeer parts.Addr w.raft).2, w.serf⟩ ∧
    ((s.raft.RemovePeer parts.Addr w.raft).1 = none →
      (removeRaftPeer s m parts w).val = none ∧
      (removeRaftPeer s m parts w).events.filter Event.isLog =
        [Event.log (LogLine.infoRemovedPeer m.Name)]) ∧
    ((s.raft.RemovePeer parts.Addr w.raft).1 = some Error.ErrUnknownPeer →
      (removeRaftPeer s m parts w).val = none ∧
      (removeRaftPeer s m parts w).events.filter Event.isLog = []) ∧
    (∀ err, (s.raft.RemovePeer parts.Addr w.raft).1 = some err →
      err ≠ Error.ErrUnknownPeer →
      (removeRaftPeer s m parts w).val = some err ∧
      (removeRaftPeer s m parts w).events.filter Event.isLog =
        [Event.log (LogLine.errRemovePeer parts err)]) ∧
    (s.raft.RemovePeer parts.Addr w.raft = (some Error.ErrUnknownPeer, w.raft) →
      (removeRaftPeer s m parts w).val = none ∧
      (removeRaftPeer s m parts w).events.filter Event.isLog = [] ∧
      (removeRaftPeer s m parts w).world = w) := by
  refine ⟨?_, ?_, ?_, ?_, ?_, ?_⟩
  · unfold removeRaftPeer
    cases h : (s.raft.RemovePeer parts.Addr w.raft).1 with
    | none => simp [h, List.filter, Event.isEngineCall]
    | some err =>
      by_cases he : err = Error.ErrUnknownPeer <;>
        simp [h, he, List.filter, Event.isEngineCall]
  · unfold removeRaftPeer
    cases h : (s.raft.RemovePeer parts.Addr w.raft).1 with
    | none => simp [h]
    | some err => by_cases he : err = Error.ErrUnknownPeer <;> simp [h, he]
  · intro h
    unfold removeRaftPeer
    simp [h, List.filter, Event.isLog]
  · intro h
    unfold removeRaftPeer
    simp [h, List.filter, Event.isLog]
  · intro err h he
    unfold removeRaftPeer
    simp [h, he, List.filter, Event.isLog]
  · intro h
    unfold removeRaftPeer
    simp [h, List.filter, Event.isLog]

/-! ## The membership reconciler: `reconcileMember`, `reconcile` -/

theorem attemptAddPeer_peerWork (s : Server R S) (parts : serverParts) (w : World R S) :
    ∀ e ∈ (attemptAddPeer s parts w).events, e.isPeerWork = true := by
  unfold attemptAddPeer
  cases h : (s.raft.AddPeer parts.Addr w.raft).1 with
  | none => simp [h, Event.isPeerWork]
  | some err => by_cases he : err = Error.ErrKnownPeer <;> simp [h, he, Event.isPeerWork]

theorem addRaftPeer_peerWork (P : Pkg) (s : Server R S) (m : Member) (parts : serverParts)
    (w : World R S) : ∀ e ∈ (addRaftPeer P s m parts w).events, e.isPeerWork = true := by
  by_cases hc : bootstrapConflict P s m parts w
  · obtain ⟨other, ho⟩ := addRaftPeer_of_conflict P s m parts w hc
    rw [ho]
    simp [Event.isPeerWork]
  · obtain ⟨w1, pre, _, hpre, _, _, hev⟩ := addRaftPeer_of_not_conflict P s m parts w hc
    rw [hev]
    intro e he
    rcases List.mem_append.mp he with h1 | h2
    · rcases hpre e h1 with rfl | rfl <;> rfl
    · exact attemptAddPeer_peerWork s parts w1 e h2

theorem removeRaftPeer_peerWork (s : Server R S) (m : Member) (parts : serverParts)
    (w : World R S) : ∀ e ∈ (removeRaftPeer s m parts w).events, e.isPeerWork = true := by
  unfold removeRaftPeer
  cases h : (s.raft.RemovePeer parts.Addr w.raft).1 with
  | none => simp [h, Event.isPeerWork]
  | some err => by_cases he : err = Error.ErrUnknownPeer <;> simp [h, he, Event.isPeerWork]

/-- The action `reconcileMember` dispatches to for a status. -/
theorem dispatch_cases (P : Pkg) (s : Server R S) (member : Member) (parts : serverParts)
    (w : World R S) :
    ∃ r : Ret R S (Option Error),
      ((member.Status = StatusAlive ∧ r = addRaftPeer P s member parts w) ∨
       (member.Status ≠ StatusAlive ∧
          (member.Status = StatusLeft ∨ member.Status = P.StatusReap) ∧
          r = removeRaftPeer s member parts w) ∨
       (member.Status ≠ StatusAlive ∧ member.Status ≠ StatusLeft ∧
          member.Status ≠ P.StatusReap ∧ r = ⟨none, w, []⟩)) ∧
      (dispatch P s member parts w).val = r.val ∧
      (dispatch P s member parts w).world = r.world ∧
      ∃ logs : List Event, (∀ e ∈ logs, e.isLog = true) ∧
        (dispatch P s member parts w).events = r.events ++ logs := by
  have fin : ∀ r : Ret R S (Option Error),
      (match r.val with
        | some err => (⟨some err, r.world,
            r.events ++ [Event.log (LogLine.errReconcileMember member err)]⟩ :
              Ret R S (Option Error))
        | none => ⟨none, r.world, r.events⟩).val = r.val ∧
      (match r.val with
        | some err => (⟨some err, r.world,
            r.events ++ [Event.log (LogLine.errReconcileMember member err)]⟩ :
              Ret R S (Option Error))
        | none => ⟨none, r.world, r.events⟩).world = r.world ∧
      ∃ logs : List Event, (∀ e ∈ logs, e.isLog = true) ∧
        (match r.val with
        | some err => (⟨some err, r.world,
            r.events ++ [Event.log (LogLine.errReconcileMember member err)]⟩ :
              Ret R S (Option Error))
        | none => ⟨none, r.world, r.events⟩).events = r.events ++ logs := by
    intro r
    cases hv : r.val with
    | none => exact ⟨rfl, rfl, [], by simp, by simp⟩
    | some err =>
      exact ⟨rfl, rfl, [Event.log (LogLine.errReconcileMember member err)],
        by simp [Event.isLog], rfl⟩
  unfold dispatch
  by_cases h1 : member.Status = StatusAlive
  · refine ⟨addRaftPeer P s member parts w, Or.inl ⟨h1, rfl⟩, ?_⟩
    simp only [h1, if_true]
    exact fin _
  · by_cases h2 : member.Status = StatusLeft ∨ member.Status = P.StatusReap
    · refine ⟨removeRaftPeer s member parts w, Or.inr (Or.inl ⟨h1, h2, rfl⟩), ?_⟩
      simp only [h1, h2, if_true, if_false]
      exact fin _
    · refine ⟨⟨none, w, []⟩, Or.inr (Or.inr ⟨h1, fun h => h2 (Or.inl h),
        fun h => h2 (Or.inr h), rfl⟩), ?_⟩
      simp only [h1, h2, if_false]
      exact ⟨trivial, trivial, [], by simp, rfl⟩

theorem attemptAddPeer_events (s : Server R S) (parts : serverParts) (w : World R S) :
    ∃ logs : List Event, (∀ e ∈ logs, e.isLog = true) ∧
      (attemptAddPeer s parts w).events = Event.AddPeer parts.Addr :: logs := by
  unfold attemptAddPeer
  cases h : (s.raft.AddPeer parts.Addr w.raft).1 with
  | none => exact ⟨[Event.log (LogLine.infoAddedPeer parts)], by simp [Event.isLog], by simp [h]⟩
  | some err =>
    by_cases he : err = Error.ErrKnownPeer
    · exact ⟨[], by simp, by simp [h, he]⟩
    · exact ⟨[Event.log (LogLine.errAddPeer err)], by simp [Event.isLog], by simp [h, he]⟩

/-- The effects of `addRaftPeer`: its entry, then reads of the snapshot, at
most one `AddPeer` call, and log lines. -/
theorem addRaftPeer_events (P : Pkg) (s : Server R S) (m : Member) (parts : serverParts)
    (w : World R S) :
    ∃ rest : List Event,
      (∀ e ∈ rest, e = Event.Members ∨ e = Event.AddPeer parts.Addr ∨ e.isLog = true) ∧
      (addRaftPeer P s m parts w).events = Event.addRaftPeer m parts :: rest := by
  by_cases hc : bootstrapConflict P s m parts w
  · obtain ⟨other, ho⟩ := addRaftPeer_of_conflict P s m parts w hc
    rw [ho]
    exact ⟨_, by simp [Event.isLog], rfl⟩
  · unfold addRaftPeer
    by_cases hb : parts.Bootstrap = true
    · have hn := (bootstrapScan_none_iff P s m parts w hb).mpr hc
      obtain ⟨logs, hlogs, hev⟩ :=
        attemptAddPeer_events s parts ⟨w.raft, (s.serf.Members w.serf).2⟩
      refine ⟨Event.Members :: Event.AddPeer parts.Addr :: logs, ?_, ?_⟩
      · intro e he
        rcases List.mem_cons.mp he with rfl | he
        · exact Or.inl rfl
        · rcases List.mem_cons.mp he with rfl | he
          · exact Or.inr (Or.inl rfl)
          · exact Or.inr (Or.inr (hlogs e he))
      · simp [hb, hn, hev]
    · obtain ⟨logs, hlogs, hev⟩ := attemptAddPeer_events s parts w
      refine ⟨Event.AddPeer parts.Addr :: logs, ?_, ?_⟩
      · intro e he
        rcases List.mem_cons.mp he with rfl | he
        · exact Or.inr (Or.inl rfl)
        · exact Or.inr (Or.inr (hlogs e he))
      · simp [hb, hev]

/-- The effects of `removeRaftPeer`: its entry, one `RemovePeer` call, and log
lines. -/
theorem removeRaftPeer_events (s : Server R S) (m : Member) (parts : serverParts)
    (w : World R S) :
    ∃ logs : List Event, (∀ e ∈ logs, e.isLog = true) ∧
      (removeRaftPeer s m parts w).events =
        Event.removeRaftPeer m parts :: Event.RemovePeer parts.Addr :: logs := by
  unfold removeRaftPeer
  cases h : (s.raft.RemovePeer parts.Addr w.raft).1 with
  | none =>
    exact ⟨[Event.log (LogLine.infoRemovedPeer m.Name)], by simp [Event.isLog], by simp [h]⟩
  | some err =>
    by_cases he : err = Error.ErrUnknownPeer
    · exact ⟨[], by simp, by simp [h, he]⟩
    · exact ⟨[Event.log (LogLine.errRemovePeer parts err)], by simp [Event.isLog],
        by simp [h, he]⟩

theorem filter_eq_nil_of_forall (f : Event → Bool) (es : List Event)
    (h : ∀ e ∈ es, f e = false) : es.filter f = [] := by
  rw [List.filter_eq_nil_iff]
  intro e he
  simp [h e he]

theorem isLog_not_entry (e : Event) (h : e.isLog = true) :
    e.isAddRaftPeer = false ∧ e.isRemoveRaftPeer = false ∧ e.isAddPeer = false ∧
      e.isRemovePeer = false ∧ e.isPeerMutation = false := by
  cases e <;> simp_all [Event.isLog, Event.isAddRaftPeer, Event.isRemoveRaftPeer,
    Event.isAddPeer, Event.isRemovePeer, Event.isPeerMutation]

/-- A member that is a valid server of the local region and not the local
node is dispatched on. -/
theorem reconcileMember_of_target (P : Pkg) (s : Server R S) (member : Member)
    (parts : serverParts) (w : World R S) (hvalid : P.isNomadServer member = some parts)
    (hregion : parts.Region = s.config.Region) (hself : member.Name ≠ localName s.config) :
    reconcileMember P s member w =
      ⟨(dispatch P s member parts w).val, (dispatch P s member parts w).world,
        Event.reconcileMember member :: (dispatch P s member parts w).events ++
          [Event.metric "reconcileMember"]⟩ := by
  unfold reconcileMember
  simp [hvalid, hregion, hself]

/-- A member that is not a valid server, or of another region, or the local
node, is skipped. -/
theorem reconcileMember_of_skipped (P : Pkg) (s : Server R S) (member : Member)
    (w : World R S)
    (h : P.isNomadServer member = none ∨
      (∃ parts, P.isNomadServer member = some parts ∧ parts.Region ≠ s.config.Region) ∨
      member.Name = localName s.config) :
    (reconcileMember P s member w).val = none ∧ (reconcileMember P s member w).world = w ∧
    ((reconcileMember P s member w).events = [Event.reconcileMember member] ∨
      (reconcileMember P s member w).events =
        [Event.reconcileMember member, Event.metric "reconcileMember"]) := by
  unfold reconcileMember
  cases hv : P.isNomadServer member with
  | none => simp
  | some parts =>
    by_cases hr : parts.Region = s.config.Region
    · have hs : member.Name = localName s.config := by
        rcases h with h | ⟨q, hq, hne⟩ | h
        · rw [hv] at h
          cases h
        · rw [hv] at hq
          cases hq
          exact absurd hr hne
        · exact h
      simp [hr, hs]
    · simp [hr]

/-- The run of `reconcileMember` for a member that is dispatched on: the
entry, the effects of the one action chosen by the status, log lines, and the
measurement. -/
theorem reconcileMember_target_cases (P : Pkg) (s : Server R S) (member : Member)
    (parts : serverParts) (w : World R S) (hvalid : P.isNomadServer member = some parts)
    (hregion : parts.Region = s.config.Region) (hself : member.Name ≠ localName s.config) :
    ∃ r : Ret R S (Option Error),
      ((member.Status = StatusAlive ∧ r = addRaftPeer P s member parts w) ∨
       (member.Status ≠ StatusAlive ∧
          (member.Status = StatusLeft ∨ member.Status = P.StatusReap) ∧
          r = removeRaftPeer s member parts w) ∨
       (member.Status ≠ StatusAlive ∧ member.Status ≠ StatusLeft ∧
          member.Status ≠ P.StatusReap ∧ r = ⟨none, w, []⟩)) ∧
      (reconcileMember P s member w).val = r.val ∧
      (reconcileMember P s member w).world = r.world ∧
      ∃ logs : List Event, (∀ e ∈ logs, e.isLog = true) ∧
        (reconcileMember P s member w).events =
          Event.reconcileMember member :: r.events ++ logs ++
            [Event.metric "reconcileMember"] := by
  obtain ⟨r, hcase, hval, hworld, logs, hlogs, hev⟩ := dispatch_cases P s member parts w
  refine ⟨r, hcase, ?_, ?_, logs, hlogs, ?_⟩
  · rw [reconcileMember_of_target P s member parts w hvalid hregion hself]
    exact hval
  · rw [reconcileMember_of_target P s member parts w hvalid hregion hself]
    exact hworld
  · rw [reconcileMember_of_target P s member parts w hvalid hregion hself]
    simp [hev]

theorem filter_reconcileMember_events (f : Event → Bool) (member : Member)
    (es logs : List Event) (hlogs : ∀ e ∈ logs, e.isLog = true)
    (hf1 : f (Event.reconcileMember member) = false)
    (hf2 : f (Event.metric "reconcileMember") = false)
    (hf3 : ∀ e, e.isLog = true → f e = false) :
    (Event.reconcileMember member :: es ++ logs ++ [Event.metric "reconcileMember"]).filter f
      = es.filter f := by
  have h3 : logs.filter f = [] :=
    filter_eq_nil_of_forall f logs fun e he => hf3 e (hlogs e he)
  simp [List.filter_cons, List.filter_append, hf1, hf2, h3]

theorem addRaftPeer_entries (P : Pkg) (s : Server R S) (m : Member) (parts : serverParts)
    (w : World R S) :
    (addRaftPeer P s m parts w).events.filter Event.isAddRaftPeer =
        [Event.addRaftPeer m parts] ∧
      (addRaftPeer P s m parts w).events.filter Event.isRemoveRaftPeer = [] := by
  obtain ⟨rest, hrest, hev⟩ := addRaftPeer_events P s m parts w
  rw [hev]
  have h1 : rest.filter Event.isAddRaftPeer = [] := by
    apply filter_eq_nil_of_forall
    intro e he
    rcases hrest e he with rfl | rfl | hl
    · rfl
    · rfl
    · exact (isLog_not_entry e hl).1
  have h2 : rest.filter Event.isRemoveRaftPeer = [] := by
    apply filter_eq_nil_of_forall
    intro e he
    rcases hrest e he with rfl | rfl | hl
    · rfl
    · rfl
    · exact (isLog_not_entry e hl).2.1
  simp [List.filter_cons, h1, h2, Event.isAddRaftPeer, Event.isRemoveRaftPeer]

theorem removeRaftPeer_entries (s : Server R S) (m : Member) (parts : serverParts)
    (w : World R S) :
    (removeRaftPeer s m parts w).events.filter Event.isRemoveRaftPeer =
        [Event.removeRaftPeer m parts] ∧
      (removeRaftPeer s m parts w).events.filter Event.isAddRaftPeer = [] := by
  obtain ⟨logs, hlogs, hev⟩ := removeRaftPeer_events s m parts w
  rw [hev]
  have h1 : logs.filter Event.isAddRaftPeer = [] :=
    filter_eq_nil_of_forall _ logs fun e he => (isLog_not_entry e (hlogs e he)).1
  have h2 : logs.filter Event.isRemoveRaftPeer = [] :=
    filter_eq_nil_of_forall _ logs fun e he => (isLog_not_entry e (hlogs e he)).2.1
  simp [List.filter_cons, h1, h2, Event.isAddRaftPeer, Event.isRemoveRaftPeer]

/-- C1: for a member that is a valid server of the local region and not the
local node, one call of `reconcileMember` enters `addRaftPeer` exactly once
and `removeRaftPeer` never when the status is alive, enters `removeRaftPeer`
exactly once and `addRaftPeer` never when the status is left or reaped, and
enters neither and returns no error for every other status.  The constant
`StatusReap` is any value other than `serf.StatusAlive`. -/
theorem reconcileMember_dispatch (P : Pkg) (s : Server R S) (member : Member)
    (parts : serverParts) (w : World R S) (hvalid : P.isNomadServer member = some parts)
    (hregion : parts.Region = s.config.Region) (hself : member.Name ≠ localName s.config)
    (hreap : P.StatusReap ≠ StatusAlive) :
    (member.Status = StatusAlive →
      (reconcileMember P s member w).events.filter Event.isAddRaftPeer =
        [Event.addRaftPeer member parts] ∧
      (reconcileMember P s member w).events.filter Event.isRemoveRaftPeer = []) ∧
    (member.Status = StatusLeft ∨ member.Status = P.StatusReap →
      (reconcileMember P s member w).events.filter Event.isRemoveRaftPeer =
        [Event.removeRaftPeer member parts] ∧
      (reconcileMember P s member w).events.filter Event.isAddRaftPeer = []) ∧
    (member.Status ≠ StatusAlive → member.Status ≠ StatusLeft →
      member.Status ≠ P.StatusReap →
      (reconcileMember P s member w).val = none ∧
      (reconcileMember P s member w).events.filter Event.isAddRaftPeer = [] ∧
      (reconcileMember P s member w).events.filter Event.isRemoveRaftPeer = []) := by
  obtain ⟨r, hcase, hval, _, logs, hlogs, hev⟩ :=
    reconcileMember_target_cases P s member parts w hvalid hregion hself
  have hadd : (reconcileMember P s member w).events.filter Event.isAddRaftPeer =
      r.events.filter Event.isAddRaftPeer := by
    rw [hev]
    exact filter_reconcileMember_events _ member r.events logs hlogs rfl rfl
      fun e he => (isLog_not_entry e he).1
  have hrem : (reconcileMember P s member w).events.filter Event.isRemoveRaftPeer =
      r.events.filter Event.isRemoveRaftPeer := by
    rw [hev]
    exact filter_reconcileMember_events _ member r.events logs hlogs rfl rfl
      fun e he => (isLog_not_entry e he).2.1
  rw [hadd, hrem, hval]
  have hleft : StatusLeft ≠ StatusAlive := by decide
  refine ⟨?_, ?_, ?_⟩
  · intro halive
    rcases hcase with ⟨_, rfl⟩ | ⟨hne, _⟩ | ⟨hne, _⟩
    · exact addRaftPeer_entries P s member parts w
    · exact absurd halive hne
    · exact absurd halive hne
  · intro hlr
    rcases hcase with ⟨halive, _⟩ | ⟨_, _, rfl⟩ | ⟨_, hnl, hnr, _⟩
    · rcases hlr with h | h
      · exact absurd (h.symm.trans halive) hleft
      · exact absurd (h.symm.trans halive) hreap
    · exact removeRaftPeer_entries s member parts w
    · rcases hlr with h | h
      · exact absurd h hnl
      · exact absurd h hnr
  · intro h1 h2 h3
    rcases hcase with ⟨halive, _⟩ | ⟨_, hlr, _⟩ | ⟨_, _, _, rfl⟩
    · exact absurd halive h1
    · rcases hlr with h | h
      · exact absurd h h2
      · exact absurd h h3
    · exact ⟨rfl, rfl, rfl⟩

/-- C3: for a member that does not parse as a valid server, or whose region
is not the local region, or whose name is `NodeName.Region` of the local
configuration, `reconcileMember` returns no error, leaves the collaborators
as they were, and neither enters `addRaftPeer` or `removeRaftPeer` nor calls
`AddPeer` or `RemovePeer`, whatever the member's status. -/
theorem reconcileMember_skips (P : Pkg) (s : Server R S) (member : Member) (w : World R S)
    (h : P.isNomadServer member = none ∨
      (∃ parts, P.isNomadServer member = some parts ∧ parts.Region ≠ s.config.Region) ∨
      member.Name = s.config.NodeName ++ "." ++ s.config.Region) :
    (reconcileMember P s member w).val = none ∧
    (reconcileMember P s member w).world = w ∧
    (reconcileMember P s member w).events.filter
      (fun e => e.isAddRaftPeer || e.isRemoveRaftPeer || e.isAddPeer || e.isRemovePeer) = [] := by
  obtain ⟨hval, hworld, hev⟩ := reconcileMember_of_skipped P s member w h
  refine ⟨hval, hworld, ?_⟩
  rcases hev with hev | hev <;> rw [hev] <;> rfl

theorem reconcileMemberCalls_append (es fs : List Event) :
    reconcileMemberCalls (es ++ fs) = reconcileMemberCalls es ++ reconcileMemberCalls fs := by
  simp [reconcileMemberCalls, List.filterMap_append]

theorem reconcileMemberCalls_of_peerWork (es : List Event)
    (h : ∀ e ∈ es, e.isPeerWork = true) : reconcileMemberCalls es = [] := by
  induction es with
  | nil => rfl
  | cons e rest ih =>
    have he := h e (List.mem_cons_self _ _)
    have hrest := ih fun x hx => h x (List.mem_cons_of_mem _ hx)
    cases e <;> simp_all [reconcileMemberCalls, Event.isPeerWork]

theorem isLog_isPeerWork (e : Event) (h : e.isLog = true) : e.isPeerWork = true := by
  cases e <;> simp_all [Event.isLog, Event.isPeerWork]

/-- Either a member is skipped, or it is a valid server of the local region
other than the local node. -/
theorem skipped_or_target (P : Pkg) (s : Server R S) (member : Member) :
    (P.isNomadServer member = none ∨
      (∃ parts, P.isNomadServer member = some parts ∧ parts.Region ≠ s.config.Region) ∨
      member.Name = localName s.config) ∨
    ∃ parts, P.isNomadServer member = some parts ∧ parts.Region = s.config.Region ∧
      member.Name ≠ localName s.config := by
  cases hv : P.isNomadServer member with
  | none => exact Or.inl (Or.inl rfl)
  | some parts =>
    by_cases hr : parts.Region = s.config.Region
    · by_cases hs : member.Name = localName s.config
      · exact Or.inl (Or.inr (Or.inr hs))
      · exact Or.inr ⟨parts, rfl, hr, hs⟩
    · exact Or.inl (Or.inr (Or.inl ⟨parts, rfl, hr⟩))

/-- Everything `reconcileMember` does after its entry is peer work. -/
theorem reconcileMember_events (P : Pkg) (s : Server R S) (member : Member)
    (w : World R S) :
    ∃ rest : List Event, (∀ e ∈ rest, e.isPeerWork = true) ∧
      (reconcileMember P s member w).events = Event.reconcileMember member :: rest := by
  rcases skipped_or_target P s member with h | ⟨parts, hvalid, hregion, hself⟩
  · obtain ⟨_, _, hev⟩ := reconcileMember_of_skipped P s member w h
    rcases hev with hev | hev
    · exact ⟨[], by simp, hev⟩
    · exact ⟨[Event.metric "reconcileMember"], by simp [Event.isPeerWork], hev⟩
  · obtain ⟨r, hcase, _, _, logs, hlogs, hev⟩ :=
      reconcileMember_target_cases P s member parts w hvalid hregion hself
    refine ⟨r.events ++ logs ++ [Event.metric "reconcileMember"], ?_, by simp [hev]⟩
    have hr : ∀ e ∈ r.events, e.isPeerWork = true := by
      rcases hcase with ⟨_, rfl⟩ | ⟨_, _, rfl⟩ | ⟨_, _, _, rfl⟩
      · exact addRaftPeer_peerWork P s member parts w
      · exact removeRaftPeer_peerWork s member parts w
      · simp
    intro e he
    rcases List.mem_append.mp he with he | he
    · rcases List.mem_append.mp he with he | he
      · exact hr e he
      · exact isLog_isPeerWork e (hlogs e he)
    · rw [List.mem_singleton.mp he]
      rfl

theorem reconcileMember_calls (P : Pkg) (s : Server R S) (member : Member)
    (w : World R S) : reconcileMemberCalls (reconcileMember P s member w).events = [member] := by
  obtain ⟨rest, hrest, hev⟩ := reconcileMember_events P s member w
  rw [hev]
  have h := reconcileMemberCalls_of_peerWork rest hrest
  simp only [reconcileMemberCalls, List.filterMap_cons] at h ⊢
  rw [h]

/-- An error of `reconcileMember` is the error of the action it dispatched. -/
theorem reconcileMember_error (P : Pkg) (s : Server R S) (member : Member)
    (w : World R S) (err : Error) (h : (reconcileMember P s member w).val = some err) :
    ∃ parts, P.isNomadServer member = some parts ∧
      ((member.Status = StatusAlive ∧ (addRaftPeer P s member parts w).val = some err) ∨
       ((member.Status = StatusLeft ∨ member.Status = P.StatusReap) ∧
          (removeRaftPeer s member parts w).val = some err)) := by
  rcases skipped_or_target P s member with hs | ⟨parts, hvalid, hregion, hself⟩
  · rw [(reconcileMember_of_skipped P s member w hs).1] at h
    cases h
  · obtain ⟨r, hcase, hval, _, _⟩ :=
      reconcileMember_target_cases P s member parts w hvalid hregion hself
    rw [hval] at h
    refine ⟨parts, hvalid, ?_⟩
    rcases hcase with ⟨ha, rfl⟩ | ⟨_, hlr, rfl⟩ | ⟨_, _, _, rfl⟩
    · exact Or.inl ⟨ha, h⟩
    · exact Or.inr ⟨hlr, h⟩
    · cases h

theorem reconcileLoop_cons (P : Pkg) (s : Server R S) (member : Member)
    (rest : List Member) (w : World R S) :
    reconcileLoop P s (member :: rest) w =
      match (reconcileMember P s member w).val with
      | some err => ⟨some err, (reconcileMember P s member w).world,
          (reconcileMember P s member w).events⟩
      | none =>
        ⟨(reconcileLoop P s rest (reconcileMember P s member w).world).val,
          (reconcileLoop P s rest (reconcileMember P s member w).world).world,
          (reconcileMember P s member w).events ++
            (reconcileLoop P s rest (reconcileMember P s member w).world).events⟩ := by
  rw [reconcileLoop]

/-- The loop visits the members in snapshot order. -/
theorem reconcileLoop_calls_ordered (P : Pkg) (s : Server R S) (ms : List Member) :
    ∀ w : World R S, reconcileMemberCalls (reconcileLoop P s ms w).events <+: ms := by
  induction ms with
  | nil => intro w; simp [reconcileLoop, reconcileMemberCalls]
  | cons member rest ih =>
    intro w
    rw [reconcileLoop_cons]
    cases hv : (reconcileMember P s member w).val with
    | some err =>
      simp only [reconcileMember_calls]
      exact ⟨rest, rfl⟩
    | none =>
      simp only [reconcileMemberCalls_append, reconcileMember_calls]
      exact (List.prefix_cons_inj member).mpr (ih _)

/-- The loop stops at the first member whose `reconcileMember` fails. -/
theorem reconcileLoop_first_error (P : Pkg) (s : Server R S) (ms : List Member) :
    ∀ (w : World R S) (pre : List (Ret R S (Option Error))) (x : Ret R S (Option Error))
      (post : List (Ret R S (Option Error))) (err : Error),
      reconcileEach P s ms w = pre ++ x :: post → (∀ y ∈ pre, y.val = none) →
      x.val = some err →
      (reconcileLoop P s ms w).val = some err ∧ (reconcileLoop P s ms w).world = x.world ∧
      reconcileMemberCalls (reconcileLoop P s ms w).events = ms.take (pre.length + 1) := by
  induction ms with
  | nil =>
    intro w pre x post err h
    simp [reconcileEach] at h
  | cons member rest ih =>
    intro w pre x post err h hpre hx
    rw [reconcileLoop_cons]
    rw [reconcileEach] at h
    cases pre with
    | nil =>
      simp only [List.nil_append, List.cons.injEq] at h
      rw [← h.1] at hx
      simp only [hx, reconcileMember_calls, ← h.1]
      simp
    | cons p pre1 =>
      simp only [List.cons_append, List.cons.injEq] at h
      have hp : (reconcileMember P s member w).val = none := by
        rw [h.1]
        exact hpre p (List.mem_cons_self _ _)
      obtain ⟨h1, h2, h3⟩ := ih _ pre1 x post err h.2
        (fun y hy => hpre y (List.mem_cons_of_mem _ hy)) hx
      simp only [hp, reconcileMemberCalls_append, reconcileMember_calls, h1, h2, h3]
      simp

/-- The loop returns no error exactly when `reconcileMember` succeeds for
every member, and then it has visited all of them. -/
theorem reconcileLoop_ok_iff (P : Pkg) (s : Server R S) (ms : List Member) :
    ∀ w : World R S,
      ((reconcileLoop P s ms w).val = none ↔ ∀ y ∈ reconcileEach P s ms w, y.val = none) ∧
      ((reconcileLoop P s ms w).val = none →
        reconcileMemberCalls (reconcileLoop P s ms w).events = ms) := by
  induction ms with
  | nil => intro w; simp [reconcileLoop, reconcileEach, reconcileMemberCalls]
  | cons member rest ih =>
    intro w
    rw [reconcileLoop_cons, reconcileEach]
    cases hv : (reconcileMember P s member w).val with
    | some err => simp [hv]
    | none =>
      simp only [List.mem_cons, forall_eq_or_imp, hv, true_and, reconcileMemberCalls_append,
        reconcileMember_calls]
      refine ⟨(ih _).1, fun h => ?_⟩
      rw [(ih _).2 h]
      rfl

theorem reconcile_unfold (P : Pkg) (s : Server R S) (w : World R S) :
    (reconcile P s w).val =
        (reconcileLoop P s (s.serf.Members w.serf).1 ⟨w.raft, (s.serf.Members w.serf).2⟩).val ∧
    (reconcile P s w).world =
        (reconcileLoop P s (s.serf.Members w.serf).1 ⟨w.raft, (s.serf.Members w.serf).2⟩).world ∧
    (reconcile P s w).events = Event.Members ::
        (reconcileLoop P s (s.serf.Members w.serf).1 ⟨w.raft, (s.serf.Members w.serf).2⟩).events
          ++ [Event.metric "reconcile"] ∧
    reconcileMemberCalls (reconcile P s w).events = reconcileMemberCalls
        (reconcileLoop P s (s.serf.Members w.serf).1 ⟨w.raft, (s.serf.Members w.serf).2⟩).events := by
  refine ⟨rfl, rfl, rfl, ?_⟩
  show reconcileMemberCalls (Event.Members :: _ ++ [Event.metric "reconcile"]) = _
  rw [← List.singleton_append, List.append_assoc, reconcileMemberCalls_append,
    reconcileMemberCalls_append]
  simp [reconcileMemberCalls]

/-- C8: `reconcile` enters `reconcileMember` for the members in snapshot
order.  With the outcomes of `reconcileMember` for the successive members
(each run from the state the previous one left): if some member fails and
every member before it succeeds, `reconcile` returns that member's error,
ends in the state that member's run left, and has entered `reconcileMember`
for the members up to and including it and for none after it; `reconcile`
returns no error if and only if `reconcileMember` succeeds for every member
of the snapshot, and has then entered it for all of them.  The error of a
failing member is the error returned by the `addRaftPeer` or `removeRaftPeer`
it dispatched to. -/
theorem reconcile_first_error (P : Pkg) (s : Server R S) (w : World R S) :
    (reconcileMemberCalls (reconcile P s w).events <+: (s.serf.Members w.serf).1) ∧
    (∀ (pre : List (Ret R S (Option Error))) (x : Ret R S (Option Error))
        (post : List (Ret R S (Option Error))) (err : Error),
      reconcileEach P s (s.serf.Members w.serf).1 ⟨w.raft, (s.serf.Members w.serf).2⟩ =
        pre ++ x :: post →
      (∀ y ∈ pre, y.val = none) → x.val = some err →
      (reconcile P s w).val = some err ∧ (reconcile P s w).world = x.world ∧
      reconcileMemberCalls (reconcile P s w).events =
        (s.serf.Members w.serf).1.take (pre.length + 1)) ∧
    ((reconcile P s w).val = none ↔
      ∀ y ∈ reconcileEach P s (s.serf.Members w.serf).1 ⟨w.raft, (s.serf.Members w.serf).2⟩,
        y.val = none) ∧
    ((reconcile P s w).val = none →
      reconcileMemberCalls (reconcile P s w).events = (s.serf.Members w.serf).1) ∧
    (∀ (member : Member) (w1 : World R S) (err : Error),
      (reconcileMember P s member w1).val = some err →
      ∃ parts, P.isNomadServer member = some parts ∧
        ((member.Status = StatusAlive ∧ (addRaftPeer P s member parts w1).val = some err) ∨
         ((member.Status = StatusLeft ∨ member.Status = P.StatusReap) ∧
            (removeRaftPeer s member parts w1).val = some err))) := by
  obtain ⟨hval, hworld, _, hcalls⟩ := reconcile_unfold P s w
  rw [hval, hworld, hcalls]
  exact ⟨reconcileLoop_calls_ordered P s _ _,
    fun pre x post err => reconcileLoop_first_error P s _ _ pre x post err,
    (reconcileLoop_ok_iff P s _ _).1, (reconcileLoop_ok_iff P s _ _).2,
    reconcileMember_error P s⟩

/-! ## The leader loop: `leaderLoop` -/

theorem selectCase_mem (rc : Bool) (r : Ready) (c : Case) (h : selectCase rc r = some c) :
    c ∈ readyCases rc r := by
  unfold selectCase at h
  exact List.getElem?_mem h

theorem mem_readyCases (rc : Bool) (r : Ready) (c : Case) :
    c ∈ readyCases rc r ↔
      (c = Case.stopCh ∧ r.stopCh = true) ∨ (c = Case.shutdownCh ∧ r.shutdownCh = true) ∨
      (c = Case.interval ∧ r.interval = true) ∨
      (∃ m, c = Case.member m ∧ r.reconcileCh = some m ∧ rc = true) := by
  unfold readyCases
  cases h1 : r.stopCh <;> cases h2 : r.shutdownCh <;> cases h3 : r.interval <;>
    cases h4 : r.reconcileCh <;> cases rc <;> simp

/-- A member is received only through an enabled `reconcileCh`. -/
theorem selectCase_member (rc : Bool) (r : Ready) (m : Member)
    (h : selectCase rc r = some (Case.member m)) : rc = true ∧ r.reconcileCh = some m := by
  have hm := (mem_readyCases rc r _).mp (selectCase_mem rc r _ h)
  rcases hm with ⟨h, _⟩ | ⟨h, _⟩ | ⟨h, _⟩ | ⟨m1, h, h1, h2⟩
  · cases h
  · cases h
  · cases h
  · cases h
    exact ⟨h2, h1⟩

/-- When some case can proceed, the `select` does not block. -/
theorem selectCase_isSome (rc : Bool) (r : Ready) (h : readyCases rc r ≠ []) :
    ∃ c, selectCase rc r = some c := by
  unfold selectCase
  have hlen : 0 < (readyCases rc r).length := List.length_pos.mpr h
  have hlt : r.pick % (readyCases rc r).length < (readyCases rc r).length :=
    Nat.mod_lt _ hlen
  exact ⟨(readyCases rc r)[r.pick % (readyCases rc r).length], List.getElem?_eq_getElem hlt⟩

theorem sectionWAIT_cons (P : Pkg) (s : Server R S) (r : Ready) (rs : List Ready)
    (rc : Bool) (w : World R S) :
    sectionWAIT P s (r :: rs) rc w =
      match selectCase rc r with
      | none => sectionWAIT P s rs rc w
      | some Case.stopCh => ⟨true, w, []⟩
      | some Case.shutdownCh => ⟨true, w, []⟩
      | some Case.interval =>
        ⟨(sectionWAIT P s rs (sectionRECONCILE P s w).val (sectionRECONCILE P s w).world).val,
          (sectionWAIT P s rs (sectionRECONCILE P s w).val (sectionRECONCILE P s w).world).world,
          (sectionRECONCILE P s w).events ++
            (sectionWAIT P s rs (sectionRECONCILE P s w).val
              (sectionRECONCILE P s w).world).events⟩
      | some (Case.member member) =>
        ⟨(sectionWAIT P s rs rc (reconcileMember P s member w).world).val,
          (sectionWAIT P s rs rc (reconcileMember P s member w).world).world,
          Event.recv member :: (reconcileMember P s member w).events ++
            (sectionWAIT P s rs rc (reconcileMember P s member w).world).events⟩ := by
  rw [sectionWAIT]

theorem gated_append (es fs : List Event) :
    ∀ g : Gate, gated g (es ++ fs) = (gated g es && gated (g.after es) fs) := by
  induction es with
  | nil => intro g; simp [gated, Gate.after]
  | cons e rest ih =>
    intro g
    rw [List.cons_append]
    simp only [gated]
    rw [ih]
    simp only [Gate.after, List.foldl_cons, Bool.and_assoc]

theorem after_append (g : Gate) (es fs : List Event) :
    g.after (es ++ fs) = (g.after es).after fs := by
  simp [Gate.after, List.foldl_append]

/-- Reconciliation work neither moves the gate nor is held back by it. -/
theorem gated_of_work (es : List Event) (h : ∀ e ∈ es, e.isReconcileWork = true) :
    ∀ g : Gate, gated g es = true ∧ g.after es = g := by
  induction es with
  | nil => intro g; exact ⟨rfl, rfl⟩
  | cons e rest ih =>
    intro g
    have he := h e (List.mem_cons_self _ _)
    have hrest := ih (fun x hx => h x (List.mem_cons_of_mem _ hx))
    have h1 : g.allows e = true ∧ g.observe e = g := by
      cases e <;> simp_all [Event.isReconcileWork, Event.isPeerWork, Gate.allows, Gate.observe]
    simp only [gated, Gate.after, List.foldl_cons, h1.1, h1.2, Bool.true_and]
    exact hrest g

theorem reconcileMember_work (P : Pkg) (s : Server R S) (member : Member) (w : World R S) :
    ∀ e ∈ (reconcileMember P s member w).events, e.isReconcileWork = true := by
  obtain ⟨rest, hrest, hev⟩ := reconcileMember_events P s member w
  rw [hev]
  intro e he
  rcases List.mem_cons.mp he with rfl | he
  · rfl
  · have := hrest e he
    cases e <;> simp_all [Event.isReconcileWork, Event.isPeerWork]

theorem reconcileLoop_work (P : Pkg) (s : Server R S) (ms : List Member) :
    ∀ w : World R S, ∀ e ∈ (reconcileLoop P s ms w).events, e.isReconcileWork = true := by
  induction ms with
  | nil => intro w; simp [reconcileLoop]
  | cons member rest ih =>
    intro w
    rw [reconcileLoop_cons]
    cases hv : (reconcileMember P s member w).val with
    | some err => exact reconcileMember_work P s member w
    | none =>
      intro e he
      rcases List.mem_append.mp he with he | he
      · exact reconcileMember_work P s member w e he
      · exact ih _ e he

theorem reconcile_work (P : Pkg) (s : Server R S) (w : World R S) :
    ∀ e ∈ (reconcile P s w).events, e.isReconcileWork = true := by
  rw [(reconcile_unfold P s w).2.2.1]
  intro e he
  rcases List.mem_append.mp he with he | he
  · rcases List.mem_cons.mp he with rfl | he
    · rfl
    · exact reconcileLoop_work P s _ _ e he
  · rw [List.mem_singleton.mp he]
    rfl

/-- The three ways through the code between `RECONCILE` and `WAIT`. -/
theorem sectionRECONCILE_cases (P : Pkg) (s : Server R S) (w : World R S) :
    (∃ err, (s.raft.Barrier w.raft).1 = some err ∧
      sectionRECONCILE P s w = ⟨false, ⟨(s.raft.Barrier w.raft).2, w.serf⟩,
        [Event.setReconcileCh false, Event.timeAfter, Event.Barrier (some err),
          Event.log (LogLine.errBarrier err)]⟩) ∨
    (∃ err, (s.raft.Barrier w.raft).1 = none ∧
      (reconcile P s ⟨(s.raft.Barrier w.raft).2, w.serf⟩).val = some err ∧
      sectionRECONCILE P s w =
        ⟨false, (reconcile P s ⟨(s.raft.Barrier w.raft).2, w.serf⟩).world,
          [Event.setReconcileCh false, Event.timeAfter, Event.Barrier none,
            Event.metric "barrier"] ++
          (reconcile P s ⟨(s.raft.Barrier w.raft).2, w.serf⟩).events ++
          [Event.reconcileReturned (some err), Event.log (LogLine.errReconcile err)]⟩) ∨
    ((s.raft.Barrier w.raft).1 = none ∧
      (reconcile P s ⟨(s.raft.Barrier w.raft).2, w.serf⟩).val = none ∧
      sectionRECONCILE P s w =
        ⟨true, (reconcile P s ⟨(s.raft.Barrier w.raft).2, w.serf⟩).world,
          [Event.setReconcileCh false, Event.timeAfter, Event.Barrier none,
            Event.metric "barrier"] ++
          (reconcile P s ⟨(s.raft.Barrier w.raft).2, w.serf⟩).events ++
          [Event.reconcileReturned none, Event.setReconcileCh true]⟩) := by
  unfold sectionRECONCILE
  cases hb : (s.raft.Barrier w.raft).1 with
  | some err => exact Or.inl ⟨err, rfl, by simp [hb]⟩
  | none =>
    cases hr : (reconcile P s ⟨(s.raft.Barrier w.raft).2, w.serf⟩).val with
    | some err => exact Or.inr (Or.inl ⟨err, rfl, rfl, by simp [hb, hr]⟩)
    | none => exact Or.inr (Or.inr ⟨rfl, rfl, by simp [hb, hr]⟩)

/-- The code between `RECONCILE` and `WAIT` respects the gate from any point,
and enables `reconcileCh` only with the barrier and the full pass behind it. -/
theorem sectionRECONCILE_gated (P : Pkg) (s : Server R S) (w : World R S) (g : Gate) :
    gated g (sectionRECONCILE P s w).events = true ∧
      ((sectionRECONCILE P s w).val = true →
        g.after (sectionRECONCILE P s w).events = ⟨true, true, true⟩) := by
  have hwork := gated_of_work _ (reconcile_work P s ⟨(s.raft.Barrier w.raft).2, w.serf⟩)
  obtain ⟨es, hes⟩ : ∃ es, es = (reconcile P s ⟨(s.raft.Barrier w.raft).2, w.serf⟩).events :=
    ⟨_, rfl⟩
  rw [← hes] at hwork
  have hafter : ∀ g : Gate, List.foldl Gate.observe g es = g := fun g => (hwork g).2
  rcases sectionRECONCILE_cases P s w with ⟨err, _, h⟩ | ⟨err, _, _, h⟩ | ⟨_, _, h⟩
  · rw [h]
    simp [gated, Gate.allows, Gate.observe]
  · rw [h, ← hes]
    simp [gated_append, after_append, hwork, hafter, gated, Gate.allows, Gate.observe,
      Gate.after]
  · rw [h, ← hes]
    simp [gated_append, after_append, hwork, hafter, gated, Gate.allows, Gate.observe,
      Gate.after]

/-- The `select` loop respects the gate: while `reconcileCh` is enabled the
observer knows the current cycle succeeded. -/
theorem sectionWAIT_gated (P : Pkg) (s : Server R S) (rs : List Ready) :
    ∀ (rc : Bool) (w : World R S) (g : Gate), (rc = true → g = ⟨true, true, true⟩) →
      gated g (sectionWAIT P s rs rc w).events = true := by
  induction rs with
  | nil => intro rc w g _; rfl
  | cons r rest ih =>
    intro rc w g hg
    rw [sectionWAIT_cons]
    cases hsel : selectCase rc r with
    | none => exact ih rc w g hg
    | some c =>
      cases c with
      | stopCh => rfl
      | shutdownCh => rfl
      | interval =>
        simp only [gated_append, (sectionRECONCILE_gated P s w g).1, Bool.true_and]
        exact ih _ _ _ (sectionRECONCILE_gated P s w g).2
      | member m =>
        have hrc := (selectCase_member rc r m hsel).1
        have hwork := gated_of_work _ (reconcileMember_work P s m w)
        have hg1 := hg hrc
        subst hg1
        show gated _ ((Event.recv m :: (reconcileMember P s m w).events) ++ _) = true
        rw [gated_append]
        simp only [gated, Gate.allows, Gate.observe, Gate.after, List.foldl_cons, Bool.and_self,
          Bool.true_and]
        rw [(hwork _).1]
        have h2 := (hwork ⟨true, true, true⟩).2
        simp only [Gate.after] at h2
        rw [h2]
        exact ih rc _ _ (fun _ => rfl)

theorem sectionRECONCILE_starts (P : Pkg) (s : Server R S) (w : World R S) :
    ∃ b rest, (sectionRECONCILE P s w).events =
      Event.setReconcileCh false :: Event.timeAfter :: Event.Barrier b :: rest := by
  rcases sectionRECONCILE_cases P s w with ⟨err, _, h⟩ | ⟨err, _, _, h⟩ | ⟨_, _, h⟩
  · exact ⟨some err, _, by rw [h]⟩
  · exact ⟨none, _, by rw [h]; rfl⟩
  · exact ⟨none, _, by rw [h]; rfl⟩

theorem leaderLoop_starts (P : Pkg) (s : Server R S) (rs : List Ready) (w : World R S) :
    ∃ b rest, (leaderLoop P s rs w).events =
      Event.setReconcileCh false :: Event.timeAfter :: Event.Barrier b :: rest := by
  obtain ⟨b, rest, h⟩ := sectionRECONCILE_starts P s w
  refine ⟨b, rest ++ (sectionWAIT P s rs (sectionRECONCILE P s w).val
    (sectionRECONCILE P s w).world).events, ?_⟩
  show (sectionRECONCILE P s w).events ++ _ = _
  rw [h]
  rfl

/-- With `reconcileCh` disabled and the timer not yet chosen, the `select`
loop does nothing but wait for the stop or shutdown channel. -/
theorem sectionWAIT_disabled (P : Pkg) (s : Server R S) (rs : List Ready) (w : World R S)
    (h : ∀ r ∈ rs, selectCase false r ≠ some Case.interval) :
    (sectionWAIT P s rs false w).events = [] ∧ (sectionWAIT P s rs false w).world = w ∧
    ((sectionWAIT P s rs false w).val = true ↔
      ∃ r ∈ rs, selectCase false r = some Case.stopCh ∨
        selectCase false r = some Case.shutdownCh) := by
  induction rs with
  | nil => simp [sectionWAIT]
  | cons r rest ih =>
    have ih1 := ih fun x hx => h x (List.mem_cons_of_mem _ hx)
    rw [sectionWAIT_cons]
    cases hsel : selectCase false r with
    | none => simp [ih1, hsel]
    | some c =>
      cases c with
      | stopCh => simp [hsel]
      | shutdownCh => simp [hsel]
      | interval => exact absurd hsel (h r (List.mem_cons_self _ _))
      | member m => exact absurd (selectCase_member false r m hsel).1 (by simp)

/-- Evaluations of the `select` in which no case can proceed leave the loop
where it is. -/
theorem sectionWAIT_blocked (P : Pkg) (s : Server R S) (rs tail : List Ready) (rc : Bool)
    (w : World R S) (h : ∀ x ∈ rs, selectCase rc x = none) :
    sectionWAIT P s (rs ++ tail) rc w = sectionWAIT P s tail rc w := by
  induction rs with
  | nil => rfl
  | cons r rest ih =>
    rw [List.cons_append, sectionWAIT_cons, h r (List.mem_cons_self _ _)]
    exact ih fun x hx => h x (List.mem_cons_of_mem _ hx)

/-- C5: when the barrier of a cycle fails, then until the `select` chooses the
interval timer the loop performs nothing beyond issuing that barrier and
logging its error (no `AddPeer`, no `RemovePeer`, no member received), and it
returns only when the `select` chooses the stop or the shutdown channel; when
the timer is chosen the loop runs the code at `RECONCILE` again, which
disables `reconcileCh`, arms a timer and issues a new barrier. -/
theorem leaderLoop_barrier_failure (P : Pkg) (s : Server R S) (w : World R S) (err : Error)
    (hb : (s.raft.Barrier w.raft).1 = some err) :
    (∀ rs : List Ready, (∀ r ∈ rs, selectCase false r ≠ some Case.interval) →
      (leaderLoop P s rs w).events =
        [Event.setReconcileCh false, Event.timeAfter, Event.Barrier (some err),
          Event.log (LogLine.errBarrier err)] ∧
      (leaderLoop P s rs w).events.filter Event.isPeerMutation = [] ∧
      (leaderLoop P s rs w).world = ⟨(s.raft.Barrier w.raft).2, w.serf⟩ ∧
      ((leaderLoop P s rs w).val = true ↔
        ∃ r ∈ rs, selectCase false r = some Case.stopCh ∨
          selectCase false r = some Case.shutdownCh)) ∧
    (∀ (rs : List Ready) (r : Ready) (rs1 : List Ready),
      (∀ x ∈ rs, selectCase false x = none) → selectCase false r = some Case.interval →
      (leaderLoop P s (rs ++ r :: rs1) w).val =
        (leaderLoop P s rs1 ⟨(s.raft.Barrier w.raft).2, w.serf⟩).val ∧
      (leaderLoop P s (rs ++ r :: rs1) w).world =
        (leaderLoop P s rs1 ⟨(s.raft.Barrier w.raft).2, w.serf⟩).world ∧
      (leaderLoop P s (rs ++ r :: rs1) w).events =
        [Event.setReconcileCh false, Event.timeAfter, Event.Barrier (some err),
          Event.log (LogLine.errBarrier err)] ++
        (leaderLoop P s rs1 ⟨(s.raft.Barrier w.raft).2, w.serf⟩).events ∧
      ∃ b rest, (leaderLoop P s rs1 ⟨(s.raft.Barrier w.raft).2, w.serf⟩).events =
        Event.setReconcileCh false :: Event.timeAfter :: Event.Barrier b :: rest) := by
  have hsec : sectionRECONCILE P s w = ⟨false, ⟨(s.raft.Barrier w.raft).2, w.serf⟩,
      [Event.setReconcileCh false, Event.timeAfter, Event.Barrier (some err),
        Event.log (LogLine.errBarrier err)]⟩ := by
    unfold sectionRECONCILE
    simp [hb]
  have hloop : ∀ rs : List Ready, leaderLoop P s rs w =
      ⟨(sectionWAIT P s rs false ⟨(s.raft.Barrier w.raft).2, w.serf⟩).val,
        (sectionWAIT P s rs false ⟨(s.raft.Barrier w.raft).2, w.serf⟩).world,
        [Event.setReconcileCh false, Event.timeAfter, Event.Barrier (some err),
          Event.log (LogLine.errBarrier err)] ++
        (sectionWAIT P s rs false ⟨(s.raft.Barrier w.raft).2, w.serf⟩).events⟩ := by
    intro rs
    unfold leaderLoop
    rw [hsec]
  constructor
  · intro rs hrs
    obtain ⟨h1, h2, h3⟩ := sectionWAIT_disabled P s rs ⟨(s.raft.Barrier w.raft).2, w.serf⟩ hrs
    rw [hloop rs]
    refine ⟨?_, ?_, h2, h3⟩
    · simp only [h1, List.append_nil]
    · simp only [h1, List.append_nil]
      rfl
  · intro rs r rs1 hrs hr
    have hw : sectionWAIT P s (rs ++ r :: rs1) false ⟨(s.raft.Barrier w.raft).2, w.serf⟩ =
        leaderLoop P s rs1 ⟨(s.raft.Barrier w.raft).2, w.serf⟩ := by
      rw [sectionWAIT_blocked P s rs (r :: rs1) false _ hrs, sectionWAIT_cons, hr]
      rfl
    rw [hloop (rs ++ r :: rs1), hw]
    exact ⟨rfl, rfl, rfl, leaderLoop_starts P s rs1 _⟩

/-- C9: in every run of `leaderLoop` a member is received from `reconcileCh`
only while it is enabled and the most recent cycle has passed its barrier and
completed its full pass without error, `reconcileCh` is enabled only after
both, and every barrier is issued with `reconcileCh` disabled.  The code at
`RECONCILE` begins by disabling `reconcileCh`, before the barrier; it leaves
`reconcileCh` enabled exactly when the barrier and the full pass both
succeed; and while `reconcileCh` is disabled the `select` never receives a
member. -/
theorem leaderLoop_gated (P : Pkg) (s : Server R S) (rs : List Ready) (w : World R S) :
    gated ⟨false, false, false⟩ (leaderLoop P s rs w).events = true ∧
    (∃ b rest, (sectionRECONCILE P s w).events =
      Event.setReconcileCh false :: Event.timeAfter :: Event.Barrier b :: rest) ∧
    ((sectionRECONCILE P s w).val = true ↔
      (s.raft.Barrier w.raft).1 = none ∧
        (reconcile P s ⟨(s.raft.Barrier w.raft).2, w.serf⟩).val = none) ∧
    (∀ (r : Ready) (m : Member), selectCase false r ≠ some (Case.member m)) := by
  refine ⟨?_, sectionRECONCILE_starts P s w, ?_, ?_⟩
  · show gated _ ((sectionRECONCILE P s w).events ++ _) = true
    rw [gated_append, (sectionRECONCILE_gated P s w _).1, Bool.true_and]
    exact sectionWAIT_gated P s rs _ _ _ (sectionRECONCILE_gated P s w _).2
  · rcases sectionRECONCILE_cases P s w with ⟨err, hb, h⟩ | ⟨err, hb, hr, h⟩ | ⟨hb, hr, h⟩
    · rw [h]
      simp [hb]
    · rw [h]
      simp [hr]
    · rw [h]
      simp [hb, hr]
  · intro r m h
    exact absurd (selectCase_member false r m h).1 (by simp)

/-- C10, as the code has it: the stop and shutdown channels are cases of the
same `select` as the timer and the membership events.  Whenever the `select`
chooses the stop or the shutdown case, the loop returns at once, reconciling
no member and not running `RECONCILE` again; this is certain when stop or
shutdown is ready and neither the timer nor a membership event can proceed.
When several cases are ready the `select` does not block and takes one of the
ready cases, whichever the runtime chooses. -/
theorem sectionWAIT_cancellation (P : Pkg) (s : Server R S) (r : Ready) (rs : List Ready)
    (rc : Bool) (w : World R S) :
    (selectCase rc r = some Case.stopCh ∨ selectCase rc r = some Case.shutdownCh →
      sectionWAIT P s (r :: rs) rc w = ⟨true, w, []⟩) ∧
    (r.stopCh = true ∨ r.shutdownCh = true → r.interval = false →
      (rc = false ∨ r.reconcileCh = none) →
      sectionWAIT P s (r :: rs) rc w = ⟨true, w, []⟩) ∧
    (r.stopCh = true ∨ r.shutdownCh = true →
      ∃ c, selectCase rc r = some c ∧ c ∈ readyCases rc r) := by
  have chosen : selectCase rc r = some Case.stopCh ∨ selectCase rc r = some Case.shutdownCh →
      sectionWAIT P s (r :: rs) rc w = ⟨true, w, []⟩ := by
    intro h
    rw [sectionWAIT_cons]
    rcases h with h | h <;> rw [h]
  have nonempty : r.stopCh = true ∨ r.shutdownCh = true → readyCases rc r ≠ [] := by
    intro h hnil
    have hmem : ∀ c, c ∉ readyCases rc r := by
      intro c
      rw [hnil]
      exact List.not_mem_nil c
    rcases h with h | h
    · exact hmem Case.stopCh ((mem_readyCases rc r _).mpr (Or.inl ⟨rfl, h⟩))
    · exact hmem Case.shutdownCh ((mem_readyCases rc r _).mpr (Or.inr (Or.inl ⟨rfl, h⟩)))
  refine ⟨chosen, ?_, ?_⟩
  · intro h hi hm
    obtain ⟨c, hc⟩ := selectCase_isSome rc r (nonempty h)
    apply chosen
    rcases (mem_readyCases rc r c).mp (selectCase_mem rc r c hc) with
      ⟨rfl, _⟩ | ⟨rfl, _⟩ | ⟨_, h3⟩ | ⟨m, _, h4, h5⟩
    · exact Or.inl hc
    · exact Or.inr hc
    · rw [hi] at h3
      cases h3
    · rcases hm with hm | hm
      · rw [hm] at h5
        cases h5
      · rw [hm] at h4
        cases h4
  · intro h
    obtain ⟨c, hc⟩ := selectCase_isSome rc r (nonempty h)
    exact ⟨c, hc, selectCase_mem rc r c hc⟩

/-- C10 fails as stated: with the stop channel closed and a member queued on
an enabled `reconcileCh`, the `select` may take the member, and the loop then
reconciles it (calling `AddPeer`) and does not return; with the stop channel
closed and the timer fired, the `select` may take the timer, and the loop
then runs `RECONCILE` again and issues a barrier. -/
theorem sectionWAIT_cancellation_counterexample :
    stopAndMember.stopCh = true ∧ stopAndMember.reconcileCh = some sampleAlive ∧
    (sectionWAIT samplePkg sampleServer [stopAndMember] true sampleWorld).val = false ∧
    (sectionWAIT samplePkg sampleServer [stopAndMember] true sampleWorld).events =
      [Event.recv sampleAlive, Event.reconcileMember sampleAlive,
        Event.addRaftPeer sampleAlive sampleParts, Event.AddPeer "10.0.0.1:4647",
        Event.log (LogLine.infoAddedPeer sampleParts), Event.metric "reconcileMember"] ∧
    stopAndTimer.stopCh = true ∧ stopAndTimer.interval = true ∧
    (sectionWAIT samplePkg sampleServer [stopAndTimer] true sampleWorld).val = false ∧
    (sectionWAIT samplePkg sampleServer [stopAndTimer] true sampleWorld).events.take 3 =
      [Event.setReconcileCh false, Event.timeAfter, Event.Barrier none] := by
  decide

/-- Witness for C10 as amended: the stop channel alone is ready. -/
theorem sectionWAIT_cancellation_witness :
    sectionWAIT samplePkg sampleServer [⟨true, false, false, none, 5⟩, stopAndMember] true
      sampleWorld = ⟨true, sampleWorld, []⟩ :=
  (sectionWAIT_cancellation samplePkg sampleServer ⟨true, false, false, none, 5⟩
    [stopAndMember] true sampleWorld).2.1 (Or.inl rfl) rfl (Or.inr rfl)

/-! ## The leadership monitor: `monitorLeadership` -/

/-- C4 at two consecutive `true` notifications: `monitorLeadership` starts a
second `leaderLoop` without closing the stop channel of the first, so two
loops are started whose stop channel has not been closed.  A `false`
notification while `stopCh` is `nil` changes nothing: no close, no loop
started, no log line. -/
theorem monitorLeadership_two_acquisitions :
    (monitorLeadership [Notification.leaderCh true, Notification.leaderCh true]).2.1 =
      [MonitorEvent.goLeaderLoop 0, MonitorEvent.log LogLine.leadershipAcquired,
        MonitorEvent.goLeaderLoop 1, MonitorEvent.log LogLine.leadershipAcquired] ∧
    activeLoops
      (monitorLeadership [Notification.leaderCh true, Notification.leaderCh true]).2.1 =
        [0, 1] ∧
    (∀ mon : Monitor, mon.stopCh = none → onLeaderCh false mon = (mon, [])) := by
  refine ⟨by decide, by decide, ?_⟩
  intro mon h
  unfold onLeaderCh
  simp [h]

/-! ## Concrete instances -/

theorem peerSetRaft_addsToPeerSet : AddsToPeerSet peerSetRaft PeerSet.peers := by
  intro addr r
  constructor
  · intro h
    simp [peerSetRaft, h]
  · intro h
    simp [peerSetRaft, h]

theorem sampleAlive_not_refused (w : World PeerSet (List Member)) :
    ¬ bootstrapConflict samplePkg sampleServer sampleAlive sampleParts w :=
  fun h => absurd h.1 (by decide)

/-- Witness for C1: scenario A, the alive server `n1.r1` seen from `n0.r1`. -/
theorem reconcileMember_dispatch_witness :
    samplePkg.isNomadServer sampleAlive = some sampleParts ∧
    sampleParts.Region = sampleServer.config.Region ∧
    sampleAlive.Name ≠ localName sampleServer.config ∧
    samplePkg.StatusReap ≠ StatusAlive ∧
    (reconcileMember samplePkg sampleServer sampleAlive sampleWorld).events.filter
      Event.isAddRaftPeer = [Event.addRaftPeer sampleAlive sampleParts] ∧
    (reconcileMember samplePkg sampleServer sampleAlive sampleWorld).events.filter
      Event.isRemoveRaftPeer = [] :=
  ⟨by decide, by decide, by decide, by decide,
    (reconcileMember_dispatch samplePkg sampleServer sampleAlive sampleParts sampleWorld
      (by decide) (by decide) (by decide) (by decide)).1 (by decide)⟩

/-- Witness for C2: scenario D, two alive bootstrap servers in the snapshot,
neither of which is added; and scenario A, the server `n1.r1`, which the
guard lets through and the engine adds to its peer set. -/
theorem addRaftPeer_bootstrap_guard_witness :
    (((addRaftPeer samplePkg sampleServer sampleBoot1 ⟨"r1", true, "10.0.0.2:4647"⟩
        sampleWorldTwoBootstrap).val = none ∧
      (addRaftPeer samplePkg sampleServer sampleBoot1 ⟨"r1", true, "10.0.0.2:4647"⟩
        sampleWorldTwoBootstrap).events.filter Event.isEngineCall = [] ∧
      (addRaftPeer samplePkg sampleServer sampleBoot1 ⟨"r1", true, "10.0.0.2:4647"⟩
        sampleWorldTwoBootstrap).world.raft = sampleWorldTwoBootstrap.raft) ∧
    ((addRaftPeer samplePkg sampleServer sampleBoot2 ⟨"r1", true, "10.0.0.3:4647"⟩
        sampleWorldTwoBootstrap).val = none ∧
      (addRaftPeer samplePkg sampleServer sampleBoot2 ⟨"r1", true, "10.0.0.3:4647"⟩
        sampleWorldTwoBootstrap).events.filter Event.isEngineCall = [] ∧
      (addRaftPeer samplePkg sampleServer sampleBoot2 ⟨"r1", true, "10.0.0.3:4647"⟩
        sampleWorldTwoBootstrap).world.raft = sampleWorldTwoBootstrap.raft)) ∧
    (addRaftPeer samplePkg sampleServer sampleAlive sampleParts sampleWorld).world.raft =
      (sampleServer.raft.AddPeer sampleParts.Addr sampleWorld.raft).2 ∧
    (sampleServer.raft.AddPeer sampleParts.Addr sampleWorld.raft).2.peers =
      ["10.0.0.1:4647"] ∧
    (addRaftPeer samplePkg sampleServer sampleAlive sampleParts sampleWorld).events.filter
      Event.isEngineCall = [Event.AddPeer "10.0.0.1:4647"] :=
  ⟨(addRaftPeer_bootstrap_guard samplePkg sampleServer sampleBoot1
      ⟨"r1", true, "10.0.0.2:4647"⟩ sampleWorldTwoBootstrap).2.2.2
      sampleBoot1 sampleBoot2 ⟨"r1", true, "10.0.0.2:4647"⟩ ⟨"r1", true, "10.0.0.3:4647"⟩
      (by decide) (by decide) (by decide) (by decide) (by decide) rfl rfl,
    ((addRaftPeer_bootstrap_guard samplePkg sampleServer sampleAlive sampleParts
      sampleWorld).2.1 (sampleAlive_not_refused sampleWorld)).1,
    by decide,
    (addRaftPeer_bootstrap_guard samplePkg sampleServer sampleAlive sampleParts
      sampleWorld).1.mpr (sampleAlive_not_refused sampleWorld)⟩

/-- Witness for C3: scenario C, the local node itself in the snapshot. -/
theorem reconcileMember_skips_witness :
    sampleSelf.Name = sampleServer.config.NodeName ++ "." ++ sampleServer.config.Region ∧
    (reconcileMember samplePkg sampleServer sampleSelf sampleWorld).val = none ∧
    (reconcileMember samplePkg sampleServer sampleSelf sampleWorld).world = sampleWorld ∧
    (reconcileMember samplePkg sampleServer sampleSelf sampleWorld).events.filter
      (fun e => e.isAddRaftPeer || e.isRemoveRaftPeer || e.isAddPeer || e.isRemovePeer) = [] :=
  ⟨by decide, reconcileMember_skips samplePkg sampleServer sampleSelf sampleWorld
    (Or.inr (Or.inr (by decide)))⟩

/-- Witness for C5: the first barrier fails, the `select` blocks once, then the
timer fires. -/
theorem leaderLoop_barrier_failure_witness :
    (sampleServer.raft.Barrier sampleWorldBarrierFails.raft).1 =
      some (Error.other "leadership lost") ∧
    (∀ x ∈ [nothingReady], selectCase false x = none) ∧
    selectCase false timerFired = some Case.interval ∧
    (leaderLoop samplePkg sampleServer ([nothingReady] ++ timerFired :: [])
      sampleWorldBarrierFails).events =
      [Event.setReconcileCh false, Event.timeAfter,
        Event.Barrier (some (Error.other "leadership lost")),
        Event.log (LogLine.errBarrier (Error.other "leadership lost"))] ++
      (leaderLoop samplePkg sampleServer []
        ⟨(sampleServer.raft.Barrier sampleWorldBarrierFails.raft).2,
          sampleWorldBarrierFails.serf⟩).events :=
  ⟨by decide, by decide, by decide,
    ((leaderLoop_barrier_failure samplePkg sampleServer sampleWorldBarrierFails
      (Error.other "leadership lost") (by decide)).2 [nothingReady] timerFired []
      (by decide) (by decide)).2.2.1⟩

/-- C6 fails as stated for an address that is already a peer: the engine
adds an absent address and reports "already a known peer" for a present one,
the guard refuses neither call, and the two calls of `addRaftPeer` for the
address `10.0.0.1:4647`, a peer beforehand, each call `AddPeer` once and log
nothing, so no addition is logged where the claim says exactly one. -/
theorem addRaftPeer_idempotent_counterexample :
    AddsToPeerSet sampleServer.raft PeerSet.peers ∧
    sampleParts.Addr ∈ sampleWorldKnownPeer.raft.peers ∧
    ¬ bootstrapConflict samplePkg sampleServer sampleAlive sampleParts sampleWorldKnownPeer ∧
    (addRaftPeer samplePkg sampleServer sampleAlive sampleParts sampleWorldKnownPeer).events =
      [Event.addRaftPeer sampleAlive sampleParts, Event.AddPeer "10.0.0.1:4647"] ∧
    (addRaftPeer samplePkg sampleServer sampleAlive sampleParts
      (addRaftPeer samplePkg sampleServer sampleAlive sampleParts
        sampleWorldKnownPeer).world).events =
      [Event.addRaftPeer sampleAlive sampleParts, Event.AddPeer "10.0.0.1:4647"] ∧
    ((addRaftPeer samplePkg sampleServer sampleAlive sampleParts sampleWorldKnownPeer).events ++
      (addRaftPeer samplePkg sampleServer sampleAlive sampleParts
        (addRaftPeer samplePkg sampleServer sampleAlive sampleParts
          sampleWorldKnownPeer).world).events).filter Event.isLog = [] :=
  ⟨peerSetRaft_addsToPeerSet, by decide, sampleAlive_not_refused sampleWorldKnownPeer,
    by decide, by decide, by decide⟩

/-- Witness for C6 as amended: `n1.r1` added twice to an empty peer set; the
two calls log the one addition and the peer set holds the address once. -/
theorem addRaftPeer_idempotent_witness :
    ¬ bootstrapConflict samplePkg sampleServer sampleAlive sampleParts sampleWorld ∧
    sampleParts.Addr ∉ sampleWorld.raft.peers ∧
    (((addRaftPeer samplePkg sampleServer sampleAlive sampleParts sampleWorld).events ++
      (addRaftPeer samplePkg sampleServer sampleAlive sampleParts
        (addRaftPeer samplePkg sampleServer sampleAlive sampleParts sampleWorld).world
          ).events).filter Event.isLog = [Event.log (LogLine.infoAddedPeer sampleParts)] ∧
      sampleParts.Addr ∈
        (addRaftPeer samplePkg sampleServer sampleAlive sampleParts sampleWorld).world.raft.peers) ∧
    (addRaftPeer samplePkg sampleServer sampleAlive sampleParts
      (addRaftPeer samplePkg sampleServer sampleAlive sampleParts sampleWorld).world
        ).world.raft.peers = ["10.0.0.1:4647"] :=
  ⟨sampleAlive_not_refused sampleWorld, by decide,
    ((addRaftPeer_idempotent samplePkg sampleServer sampleAlive sampleParts sampleWorld
      (sampleAlive_not_refused sampleWorld)).2.2.2.2 PeerSet.peers peerSetRaft_addsToPeerSet
      (sampleAlive_not_refused _)).2.2.2.2.1 (by decide),
    by decide⟩

/-- Witness for C7: removing `n1.r1` from an empty peer set. -/
theorem removeRaftPeer_contract_witness :
    sampleServer.raft.RemovePeer sampleParts.Addr sampleWorld.raft =
      (some Error.ErrUnknownPeer, sampleWorld.raft) ∧
    (removeRaftPeer sampleServer sampleAlive sampleParts sampleWorld).val = none ∧
    (removeRaftPeer sampleServer sampleAlive sampleParts sampleWorld).events.filter
      Event.isLog = [] ∧
    (removeRaftPeer sampleServer sampleAlive sampleParts sampleWorld).world = sampleWorld :=
  ⟨by decide,
    (removeRaftPeer_contract sampleServer sampleAlive sampleParts sampleWorld).2.2.2.2.2
      (by decide)⟩

/-- Witness for C8: the engine refuses the first of two alive servers; the
pass returns that error and does not enter `reconcileMember` for the second. -/
theorem reconcile_first_error_witness :
    (reconcile samplePkg rejectingServer ⟨⟨[], []⟩, [sampleAlive, sampleBoot1]⟩).val =
      some (Error.other "not leader") ∧
    (reconcile samplePkg rejectingServer ⟨⟨[], []⟩, [sampleAlive, sampleBoot1]⟩).world =
      (reconcileMember samplePkg rejectingServer sampleAlive
        ⟨⟨[], []⟩, [sampleAlive, sampleBoot1]⟩).world ∧
    reconcileMemberCalls
      (reconcile samplePkg rejectingServer ⟨⟨[], []⟩, [sampleAlive, sampleBoot1]⟩).events =
        [sampleAlive] :=
  (reconcile_first_error samplePkg rejectingServer ⟨⟨[], []⟩, [sampleAlive, sampleBoot1]⟩).2.1
    [] (reconcileMember samplePkg rejectingServer sampleAlive
      ⟨⟨[], []⟩, [sampleAlive, sampleBoot1]⟩)
    [reconcileMember samplePkg rejectingServer sampleBoot1
      (reconcileMember samplePkg rejectingServer sampleAlive
        ⟨⟨[], []⟩, [sampleAlive, sampleBoot1]⟩).world]
    (Error.other "not leader") rfl (by simp) (by decide)

/-- Witness for C9: a full cycle that succeeds, after which a member is
received and reconciled. -/
theorem leaderLoop_gated_witness :
    gated ⟨false, false, false⟩
      (leaderLoop samplePkg sampleServer [stopAndMember] sampleWorld).events = true ∧
    Event.recv sampleAlive ∈
      (leaderLoop samplePkg sampleServer [stopAndMember] sampleWorld).events :=
  ⟨(leaderLoop_gated samplePkg sampleServer [stopAndMember] sampleWorld).1, by decide⟩

end Nomad
